import Mathlib

/-!
# Verification of the LLM-on-Web RAG core

Shallow embedding of the chunking / vector-search / RAG-budgeting /
streaming-generation core of the `LLM-on-Web` repository, together with
theorems settling the frozen claims about it.

Conventions of the embedding:
* JS strings are modelled as `List Char`; JS numbers appearing as token
  counts, budgets and ids are modelled as `ℕ`/`ℤ`, and fractional
  arithmetic (`Math.ceil`, `Math.floor` over float expressions) as exact
  `ℚ` arithmetic with `Int.ceil`/`Int.floor` (at the concrete divisors
  used by the source — 0.75, 4, 2 and `overlap/chunkSize` — float
  rounding provably cannot cross an integer boundary, so the exact
  rationals agree with the JS floats).
* The embedding / generation models are external collaborators
  (`§6` of the spec); similarity over embedding vectors is therefore a
  parameter `sim : V → V → ℚ` of the definitions that consume it
  (the source always instantiates it with `embedder.cosineSimilarity`).
* Asynchronous IndexedDB storage is modelled as in-memory lists of
  records (the source treats it abstractly as a key-value store).
-/

namespace LLMWeb

/-! ## JS string primitives

`jsSplitWS` models `text.split(/\s+/)`: split on maximal runs of
whitespace, keeping the empty fragments that JS produces at a leading or
trailing separator (`"".split(/\s+/) = [""]`, `" a ".split(/\s+/) =
["", "a", ""]`).  `jsIsWS` covers the ASCII part of the JS `\s` class;
the additional Unicode space characters are not modelled. -/

def jsIsWS (c : Char) : Bool :=
  c == ' ' || c == '\t' || c == '\n' || c == '\r' || c == '\x0b' || c == '\x0c'

/-- Streaming state machine for `split(/\s+/)`: `acc` is the fragment
being built (reversed) and `inWS = true` means the scanner is inside a
separator run (the fragment before it has been emitted already); a run
at the end of input still emits the trailing empty fragment, as JS
does. -/
def jsSplitWSGo : List Char → List Char → Bool → List (List Char)
  | [], acc, inWS => if inWS then [[]] else [acc.reverse]
  | c :: rest, acc, inWS =>
    if jsIsWS c then
      if inWS then jsSplitWSGo rest [] true
      else acc.reverse :: jsSplitWSGo rest [] true
    else jsSplitWSGo rest (c :: acc) false

def jsSplitWS (text : List Char) : List (List Char) :=
  jsSplitWSGo text [] false

/-- `words.join(' ')`: concatenate fragments with a single space between
consecutive fragments. -/
def joinSp : List (List Char) → List Char
  | [] => []
  | [w] => w
  | w :: ws => w ++ ' ' :: joinSp ws

/-- `arr.slice(-n)` for a non-negative `n`.  JS quirk modelled here: for
`n = 0` the call is `slice(-0) = slice(0)` and returns the whole array;
for `n ≥ arr.length` it also returns the whole array. -/
def jsSliceNeg (n : ℕ) (l : List α) : List α :=
  if n = 0 then l else l.drop (l.length - n)

/-! ## Token estimators

Two distinct estimators exist in the source:
* `approximateTokens` — the closure inside `VectorStore.chunkText`
  (src/embeddings/store.js): `Math.ceil(text.split(/\s+/).length / 0.75)`.
* `estimateTokens` — `RAGPipeline.estimateTokens` (the RAG pipeline
  module): `Math.ceil((chars/4 + words/0.75) / 2)`. -/

/-- Generic exact form of `Math.ceil(a / b)` for naturals:
`(a + b - 1) / b` in truncating natural division. -/
theorem natCeilDiv_eq_ceil (a b : ℕ) (hb : 0 < b) :
    (((a + b - 1) / b : ℕ) : ℤ) = Int.ceil ((a : ℚ) / (b : ℚ)) := by
  set q := (a + b - 1) / b with hq
  have hm1 : q * b ≤ a + b - 1 := Nat.div_mul_le_self (a + b - 1) b
  have hm2 : a + b - 1 < (q + 1) * b := by
    rw [hq]
    exact (Nat.div_lt_iff_lt_mul hb).mp (Nat.lt_succ_self _)
  have hexp : (q + 1) * b = q * b + b := by ring
  rw [hexp] at hm2
  have hle : a ≤ q * b := by omega
  have hlt : q * b < a + b := by omega
  have hbq : (0 : ℚ) < (b : ℚ) := by exact_mod_cast hb
  symm
  rw [Int.ceil_eq_iff]
  refine ⟨?_, ?_⟩
  · push_cast
    rw [sub_lt_iff_lt_add, div_add' _ _ _ (ne_of_gt hbq), lt_div_iff₀ hbq]
    have hc : (q : ℚ) * b < (a : ℚ) + b := by exact_mod_cast hlt
    linarith [hc]
  · push_cast
    rw [div_le_iff₀ hbq]
    exact_mod_cast hle

/-- The estimator closed over by `VectorStore.chunkText`:
`Math.ceil(text.split(/\s+/).length / 0.75)`, in the exact integer form
`(4*words + 2) / 3` (see `approximateTokens_eq_ceil`). -/
def approximateTokens (text : List Char) : ℕ :=
  (4 * (jsSplitWS text).length + 2) / 3

/-- `RAGPipeline.estimateTokens`:
`Math.ceil((chars/4 + words/0.75) / 2)`, in the exact integer form
`(3*chars + 16*words + 23) / 24` (see `estimateTokens_eq_ceil`). -/
def estimateTokens (text : List Char) : ℕ :=
  (3 * text.length + 16 * (jsSplitWS text).length + 23) / 24

/-- `approximateTokens` is exactly the source's
`Math.ceil(words / 0.75)`. -/
theorem approximateTokens_eq_ceil (text : List Char) :
    (approximateTokens text : ℤ) =
      Int.ceil (((jsSplitWS text).length : ℚ) / 0.75) := by
  unfold approximateTokens
  have h := natCeilDiv_eq_ceil (4 * (jsSplitWS text).length) 3 (by norm_num)
  rw [show 4 * (jsSplitWS text).length + 2 = 4 * (jsSplitWS text).length + 3 - 1 by omega]
  rw [h]
  congr 1
  rw [show (0.75 : ℚ) = 3 / 4 by norm_num]
  push_cast
  field_simp
  ring

/-- `estimateTokens` is exactly the source's
`Math.ceil((chars/4 + words/0.75) / 2)`. -/
theorem estimateTokens_eq_ceil (text : List Char) :
    (estimateTokens text : ℤ) =
      Int.ceil ((((text.length : ℚ) / 4) + (((jsSplitWS text).length : ℚ) / 0.75)) / 2) := by
  unfold estimateTokens
  have h := natCeilDiv_eq_ceil (3 * text.length + 16 * (jsSplitWS text).length) 24 (by norm_num)
  rw [show 3 * text.length + 16 * (jsSplitWS text).length + 23 =
      3 * text.length + 16 * (jsSplitWS text).length + 24 - 1 by omega]
  rw [h]
  congr 1
  rw [show (0.75 : ℚ) = 3 / 4 by norm_num]
  push_cast
  field_simp
  ring

/-! ## Chunker (`VectorStore.chunkText`) -/

/-- A chunk record as produced by `chunkText` (no `id`: IndexedDB
assigns ids on insertion). -/
structure Chunk where
  docId : ℕ
  text : List Char
  position : ℕ
  startIndex : ℤ
  endIndex : ℕ
  tokenCount : ℕ
  deriving Repr, DecidableEq

/-- The word loop of `chunkText`.  State: remaining words, running word
index `i`, `currentChunk` (`cur`), `currentTokenCount` (`curTok`),
`position` (`pos`).  When adding the next word would exceed `chunkSize`
and the current chunk is non-empty, the chunk is flushed and the next
one is seeded with `currentChunk.slice(-overlapWords)` where
`overlapWords = Math.floor(currentChunk.length * (overlap/chunkSize))`
(see `overlapWords_eq_floor` and the `slice(-0)` quirk in
`jsSliceNeg`), re-estimating the seed's token count with
`approximateTokens`. -/
def chunkLoop (docId chunkSize overlap : ℕ) :
    List (List Char) → ℕ → List (List Char) → ℕ → ℕ → List Chunk
  | [], i, cur, curTok, pos =>
    if 0 < cur.length then
      [⟨docId, joinSp cur, pos, (i : ℤ) - cur.length, i, curTok⟩]
    else []
  | w :: rest, i, cur, curTok, pos =>
    if curTok + approximateTokens w > chunkSize ∧ 0 < cur.length then
      ⟨docId, joinSp cur, pos, (i : ℤ) - cur.length, i, curTok⟩ ::
        chunkLoop docId chunkSize overlap rest (i + 1)
          (jsSliceNeg (cur.length * overlap / chunkSize) cur ++ [w])
          (approximateTokens (joinSp (jsSliceNeg (cur.length * overlap / chunkSize) cur)) +
            approximateTokens w)
          (pos + 1)
    else
      chunkLoop docId chunkSize overlap rest (i + 1) (cur ++ [w]) (curTok + approximateTokens w) pos

/-- The `overlapWords` computation of `chunkLoop` is exactly the
source's `Math.floor(currentChunk.length * (overlap / chunkSize))`
(at `chunkSize = 0` the JS computes `Infinity` and `slice(-Infinity)`
keeps the whole chunk, and the model's division-by-zero convention
gives `overlapWords = 0`, for which `jsSliceNeg` also keeps the whole
chunk). -/
theorem overlapWords_eq_floor (len overlap chunkSize : ℕ) :
    ((len * overlap / chunkSize : ℕ) : ℤ) =
      Int.floor ((len : ℚ) * ((overlap : ℚ) / (chunkSize : ℚ))) := by
  have harg : (len : ℚ) * ((overlap : ℚ) / (chunkSize : ℚ)) =
      (((len * overlap : ℕ) : ℤ) : ℚ) / ((chunkSize : ℕ) : ℚ) := by
    push_cast
    ring
  rw [harg, Rat.floor_intCast_div_natCast]
  norm_cast

/-- `VectorStore.chunkText(text, docId, chunkSize = 800, overlap = 200)`. -/
def chunkText (text : List Char) (docId : ℕ) (chunkSize : ℕ := 800) (overlap : ℕ := 200) :
    List Chunk :=
  chunkLoop docId chunkSize overlap (jsSplitWS text) 0 [] 0 0

/-! ## Stored records (IndexedDB object stores of `VectorStore`) -/

/-- A document record (`documents` store).  `id` is the IndexedDB key. -/
structure StoredDoc where
  id : ℕ
  name : List Char
  type : List Char
  content : List Char
  size : ℕ
  createdAt : ℕ
  deriving Repr, DecidableEq

/-- A chunk record (`chunks` store): a `Chunk` plus its IndexedDB key. -/
structure StoredChunk extends Chunk where
  id : ℕ
  deriving Repr, DecidableEq

/-- A vector record (`vectors` store): keyed by `id = chunkId`; the
`Float32Array` blob is modelled as the vector payload itself. -/
structure VecRecord (V : Type) where
  id : ℕ
  chunkId : ℕ
  vector : V
  dimensions : ℕ
  deriving Repr, DecidableEq

/-- The `metadata` store's single `config` record.  The counters are
`ℤ` because the JS numbers can be decremented below zero. -/
structure MetaConfig where
  chunkSize : ℕ
  chunkOverlap : ℕ
  dimensions : Option ℕ
  totalDocuments : ℤ
  totalChunks : ℤ
  deriving Repr, DecidableEq

/-- The whole persistent state of a `VectorStore`. -/
structure StoreState (V : Type) where
  documents : List StoredDoc
  chunks : List StoredChunk
  vectors : List (VecRecord V)
  config : MetaConfig
  deriving Repr, DecidableEq

/-- `helper.get(store, key)`: first record with the given key. -/
def getChunkById (l : List StoredChunk) (k : ℕ) : Option StoredChunk :=
  l.find? (fun r => r.id = k)

def getDocById (l : List StoredDoc) (k : ℕ) : Option StoredDoc :=
  l.find? (fun r => r.id = k)

/-- `helper.delete(store, key)`. -/
def deleteChunkById (l : List StoredChunk) (k : ℕ) : List StoredChunk :=
  l.filter (fun r => r.id ≠ k)

def deleteVecById (l : List (VecRecord V)) (k : ℕ) : List (VecRecord V) :=
  l.filter (fun r => r.id ≠ k)

/-! ## Search items and ranking (`Embedder.findTopK`, `Embedder.mmrRerank`)

The similarity metric is a parameter `sim`; the source always passes
`embedder.cosineSimilarity` (`dot(a,b)/(|a|·|b|)`, `0` on a zero norm),
an external-model-dependent float computation.  All ranking claims are
proved for every `sim`. -/

/-- An entry of `vectorsWithScores` as built by `VectorStore.queryVector`.
`document` is optional: the source stores `undefined` when the owning
document record is missing (it only crashes on a missing chunk). -/
structure SearchItem (V : Type) where
  vector : V
  score : ℚ
  chunk : StoredChunk
  document : Option StoredDoc
  chunkId : ℕ
  deriving Repr, DecidableEq

/-- The `forEach` argmax scan used twice by `mmrRerank`: running best
`(index, maxScore, element)` starting from `maxScore = -Infinity`
(modelled by the `none` accumulator), updated only on a strictly larger
score, so the first-encountered maximum wins. -/
def argmaxGo (f : α → ℚ) : List α → ℕ → Option (ℕ × ℚ × α) → Option (ℕ × ℚ × α)
  | [], _, best => best
  | a :: rest, i, best =>
    let s := f a
    let best' :=
      match best with
      | none => some (i, s, a)
      | some (j, m, b) => if m < s then some (i, s, a) else some (j, m, b)
    argmaxGo f rest (i + 1) best'

def argmaxFirst (f : α → ℚ) (l : List α) : Option (ℕ × ℚ × α) :=
  argmaxGo f l 0 none

/-- `maxSim` of a candidate against the already selected documents:
starts at `0` and keeps the largest similarity. -/
def maxSimToSelected (sim : V → V → ℚ) (c : SearchItem V) (selected : List (SearchItem V)) : ℚ :=
  selected.foldl
    (fun maxSim s => let v := sim c.vector s.vector; if maxSim < v then v else maxSim) 0

/-- The MMR score `lambda * relevance - (1 - lambda) * maxSim`. -/
def mmrScore (sim : V → V → ℚ) (queryVector : V) (lam : ℚ)
    (selected : List (SearchItem V)) (candidate : SearchItem V) : ℚ :=
  lam * sim queryVector candidate.vector - (1 - lam) * maxSimToSelected sim candidate selected

/-- The `while (selected.length < k && remaining.length > 0)` loop of
`mmrRerank`; `fuel` bounds the iteration count (each pass splices one
element out of `remaining`, so `remaining.length` is enough fuel). -/
def mmrLoop (sim : V → V → ℚ) (queryVector : V) (lam : ℚ) (k : ℕ) :
    List (SearchItem V) → List (SearchItem V) → ℕ → List (SearchItem V)
  | selected, _, 0 => selected
  | selected, remaining, fuel + 1 =>
    if selected.length < k ∧ 0 < remaining.length then
      match argmaxFirst (mmrScore sim queryVector lam selected) remaining with
      | some (i, s, c) =>
        mmrLoop sim queryVector lam k (selected ++ [{ c with score := s }])
          (remaining.eraseIdx i) fuel
      | none => selected
    else selected

/-- `Embedder.mmrRerank(queryVector, vectors, lambda, k)`:
first select the candidate of highest relevance, then run the MMR loop. -/
def mmrRerank (sim : V → V → ℚ) (queryVector : V) (vectors : List (SearchItem V))
    (lam : ℚ) (k : ℕ) : List (SearchItem V) :=
  if vectors.length = 0 then []
  else
    match argmaxFirst (fun c => sim queryVector c.vector) vectors with
    | some (i, s, c) =>
      let remaining := vectors.eraseIdx i
      mmrLoop sim queryVector lam k [{ c with score := s }] remaining remaining.length
    | none => mmrLoop sim queryVector lam k [] vectors vectors.length

/-- `Embedder.findTopK(queryVector, vectors, k)` at the default cosine
metric: recompute each score, sort descending (JS `sort` is stable),
take `k`.  The transient `index` field the JS spread attaches is not
modelled (nothing reads it). -/
def findTopK (sim : V → V → ℚ) (queryVector : V) (vectors : List (SearchItem V))
    (k : ℕ) : List (SearchItem V) :=
  let scores := vectors.map (fun vec => { vec with score := sim queryVector vec.vector })
  (scores.mergeSort (fun a b => decide (b.score ≤ a.score))).take k

/-! ## `VectorStore.queryVector` and `deleteDocument` -/

/-- The scan over all vector records: score each vector, keep those with
`score ≥ threshold`, look up the owning chunk (a missing chunk record
makes the JS throw — modelled as `none`) and document (a missing
document is tolerated: `undefined`). -/
def collectScored (sim : V → V → ℚ) (queryVector : V) (st : StoreState V) (threshold : ℚ) :
    List (VecRecord V) → Option (List (SearchItem V))
  | [] => some []
  | r :: rest =>
    let score := sim queryVector r.vector
    if threshold ≤ score then
      match getChunkById st.chunks r.chunkId with
      | none => none
      | some chunk =>
        let doc := getDocById st.documents chunk.docId
        (collectScored sim queryVector st threshold rest).map
          (fun tail => ⟨r.vector, score, chunk, doc, r.chunkId⟩ :: tail)
    else collectScored sim queryVector st threshold rest

/-- `VectorStore.queryVector`: embed the query (the query vector is the
parameter), scan all vectors, then rank by MMR or plain top-K.
`none` models the thrown `TypeError` on a dangling `chunkId`. -/
def queryVector (sim : V → V → ℚ) (queryVec : V) (st : StoreState V)
    (topK : ℕ) (threshold : ℚ) (useMMR : Bool) (mmrLambda : ℚ) :
    Option (List (SearchItem V)) :=
  (collectScored sim queryVec st threshold st.vectors).map (fun vectorsWithScores =>
    if useMMR ∧ 0 < vectorsWithScores.length then
      mmrRerank sim queryVec vectorsWithScores mmrLambda topK
    else
      findTopK sim queryVec vectorsWithScores topK)

/-- The body of the per-chunk-id deletion loop of `deleteDocument`:
`helper.delete(chunks, chunkId); helper.delete(vectors, chunkId)`. -/
def deleteChunkAndVector (s : StoreState V) (cid : ℕ) : StoreState V :=
  { s with
    chunks := deleteChunkById s.chunks cid
    vectors := deleteVecById s.vectors cid }

/-- `VectorStore.deleteDocument(docId)`: collect the ids of the chunks
owned by `docId`, delete each chunk and its vector by that key, delete
the document, decrement the metadata counters.  Returns the new state
and `deletedChunks`. -/
def deleteDocument (st : StoreState V) (docId : ℕ) : StoreState V × ℕ :=
  let chunkIds := (st.chunks.filter (fun ch => ch.docId = docId)).map (fun ch => ch.id)
  let st1 := chunkIds.foldl deleteChunkAndVector st
  let st2 := { st1 with documents := st1.documents.filter (fun d => d.id ≠ docId) }
  let config := { st2.config with
    totalDocuments := st2.config.totalDocuments - 1
    totalChunks := st2.config.totalChunks - chunkIds.length }
  ({ st2 with config := config }, chunkIds.length)

/-! ## RAG pipeline (`RAGPipeline.retrieveContext` and helpers)

`retrieveContext` first awaits `vectorStore.search(query, {topK: topK*2,
...})` — an external, asynchronous call through the embedding
collaborator — and then runs a pure budget loop over the ranked result
list.  The budget loop is embedded here over that ranked list
(`retrieveContextFromResults`); the loop dereferences `result.document`,
so its input type carries the document record directly. -/

structure RagConfig where
  maxContextTokens : ℕ
  topK : ℕ
  threshold : ℚ
  useMMR : Bool
  mmrLambda : ℚ
  includeMetadata : Bool
  deriving Repr, DecidableEq

/-- `RAGPipeline.defaultOptions`. -/
def defaultOptions : RagConfig :=
  ⟨2000, 5, 3 / 10, true, 1 / 2, true⟩

/-- A ranked search result as consumed by the budget loop. -/
structure RagResult where
  chunk : StoredChunk
  document : StoredDoc
  score : ℚ
  deriving Repr, DecidableEq

/-- An element of `contextChunks`. -/
structure ContextChunk where
  text : List Char
  score : ℚ
  position : ℕ
  docId : ℕ
  docName : List Char
  deriving Repr, DecidableEq

/-- An entry of the `sources` map (insertion-ordered, keyed by doc id);
`chunks` records `(position, score)` pairs. -/
structure SourceEntry where
  id : ℕ
  name : List Char
  type : List Char
  chunks : List (ℕ × ℚ)
  deriving Repr, DecidableEq

/-- A `sources` entry with its aggregated `relevance`. -/
structure SourceWithRel extends SourceEntry where
  relevance : ℚ
  deriving Repr, DecidableEq

/-- The value returned by `retrieveContext` (`searchTime` omitted). -/
structure RetrievalContext where
  contextText : List Char
  sources : List SourceWithRel
  tokensUsed : ℕ
  chunksUsed : ℕ
  deriving Repr, DecidableEq

/-- Track a chunk under its document in the insertion-ordered `sources`
map. -/
def addSource (sources : List SourceEntry) (doc : StoredDoc) (position : ℕ) (score : ℚ) :
    List SourceEntry :=
  if sources.any (fun s => s.id = doc.id) then
    sources.map (fun s =>
      if s.id = doc.id then { s with chunks := s.chunks ++ [(position, score)] } else s)
  else
    sources ++ [⟨doc.id, doc.name, doc.type, [(position, score)]⟩]

/-- The context-chunk record pushed for one search result. -/
def ragChunkOf (result : RagResult) : ContextChunk :=
  ⟨result.chunk.text, result.score, result.chunk.position,
   result.document.id, result.document.name⟩

/-- The token-budget loop of `retrieveContext`: stop before adding a
chunk that would push the running total over `maxContextTokens`; stop
after adding once `topK` chunks are collected. -/
def buildContextLoop (maxContextTokens topK : ℕ) :
    List RagResult → List ContextChunk → List SourceEntry → ℕ →
    List ContextChunk × List SourceEntry × ℕ
  | [], contextChunks, sources, currentTokens => (contextChunks, sources, currentTokens)
  | result :: rest, contextChunks, sources, currentTokens =>
    if currentTokens + estimateTokens result.chunk.text > maxContextTokens then
      (contextChunks, sources, currentTokens)
    else
      if topK ≤ (contextChunks ++ [ragChunkOf result]).length then
        (contextChunks ++ [ragChunkOf result],
         addSource sources result.document result.chunk.position result.score,
         currentTokens + estimateTokens result.chunk.text)
      else
        buildContextLoop maxContextTokens topK rest (contextChunks ++ [ragChunkOf result])
          (addSource sources result.document result.chunk.position result.score)
          (currentTokens + estimateTokens result.chunk.text)

/-- Group `contextChunks` by `docId` in first-appearance order
(the `docGroups` map of `formatContext`). -/
def groupByDoc (chunks : List ContextChunk) : List (ℕ × List ContextChunk) :=
  chunks.foldl
    (fun acc c =>
      if acc.any (fun p => p.1 = c.docId) then
        acc.map (fun p => if p.1 = c.docId then (p.1, p.2 ++ [c]) else p)
      else acc ++ [(c.docId, [c])]) []

/-- Append one chunk's text plus the newline padding of `formatContext`. -/
def appendChunkText (acc : List Char) (c : ContextChunk) : List Char :=
  let acc := acc ++ c.text
  let acc := if c.text.getLast? = some '\n' then acc else acc ++ ['\n']
  acc ++ ['\n']

/-- One document group of `formatContext`: optional `[Document i: name]`
header, then the group's chunks sorted by `position` (stable). -/
def formatDocGroup (includeMetadata : Bool) (docIndex : ℕ) (docChunks : List ContextChunk)
    (acc : List Char) : List Char :=
  let header :=
    if includeMetadata then
      ('[' :: ("Document ".toList ++ (Nat.repr docIndex).toList ++ ": ".toList ++
        (docChunks.headD ⟨[], 0, 0, 0, []⟩).docName ++ "]\n".toList))
    else []
  let sorted := docChunks.mergeSort (fun a b => decide (a.position ≤ b.position))
  sorted.foldl appendChunkText (acc ++ header)

/-- `RAGPipeline.formatContext`. -/
def formatContext (chunks : List ContextChunk) (includeMetadata : Bool) : List Char :=
  if chunks.length = 0 then []
  else
    let header := "CONTEXT:\n========\n\n".toList
    let groups := groupByDoc chunks
    let body := (List.enumFrom 1 groups).foldl
      (fun acc gi => formatDocGroup includeMetadata gi.1 gi.2.2 acc) header
    body ++ "========\n".toList

/-- `Math.max(...scores)` over a (by construction non-empty) list. -/
def listMax : List ℚ → ℚ
  | [] => 0
  | a :: rest => rest.foldl max a

/-- `RAGPipeline.retrieveContext`, factored over the ranked results that
`vectorStore.search` returned (`searchResults.results`). -/
def retrieveContextFromResults (results : List RagResult) (config : RagConfig) :
    RetrievalContext :=
  if results.length = 0 then ⟨[], [], 0, 0⟩
  else
    let (contextChunks, sources, currentTokens) :=
      buildContextLoop config.maxContextTokens config.topK results [] [] 0
    let contextText := formatContext contextChunks config.includeMetadata
    let sourcesList := sources.map (fun s => ⟨s, listMax (s.chunks.map (fun c => c.2))⟩)
    let sorted := sourcesList.mergeSort (fun a b => decide (b.relevance ≤ a.relevance))
    ⟨contextText, sorted, currentTokens, contextChunks.length⟩

/-! ## Streaming generation controller (`ChatEngine`)

`generateStream` is asynchronous: the external generative model emits
token fragments through the `TextStreamer` callback, the environment may
fire the timeout timer, abort an externally supplied signal, or call
`chatEngine.stop()`, and finally the pipeline promise settles.  The run
is modelled as a pure fold over a script of such events followed by the
settlement, producing the callback trace (`onToken`/`onDone`/`onError`
invocations) and the returned/thrown result. -/

/-- The abort controller slot of the engine.  For a self-created
`AbortController`, `canAbort = true`; when the caller supplied a signal
the engine stores the wrapper `{ signal }`, which has no `abort`
method (`canAbort = false`). -/
structure Ctl where
  canAbort : Bool
  aborted : Bool
  deriving Repr, DecidableEq

/-- The mutable per-session state of `ChatEngine` during one
`generateStream` call.  `abortCalls` is instrumentation only: it counts
the engine's own `abortController.abort()` invocations (the JS object
has no such field). -/
structure Session where
  ctl : Ctl
  ownAbortController : Bool
  generatedText : List Char
  tokenCount : ℕ
  isGenerating : Bool
  abortCalls : ℕ
  deriving Repr, DecidableEq

/-- Callback invocations observable by the caller. -/
inductive CB
  | onToken (text : List Char)
  | onDone (text : List Char) (aborted : Bool)
  | onErrorTimeout
  | onErrorModel
  deriving Repr, DecidableEq

/-- Events the environment can interleave during a generation session. -/
inductive GenEvent
  /-- the `TextStreamer` callback delivers a text fragment -/
  | token (text : List Char)
  /-- the external owner of a caller-supplied signal aborts it -/
  | extAbort
  /-- the `setTimeout(maxTime)` timer fires -/
  | timeout
  /-- external code calls `chatEngine.stop()` -/
  | stopCall
  deriving Repr, DecidableEq

/-- How the `pipeline(...)` promise settles. -/
inductive PipeTerm
  /-- resolves with the assembled final text -/
  | resolve (finalText : List Char)
  /-- rejects; `isAbortError` tells whether `error.name === 'AbortError'` -/
  | reject (isAbortError : Bool)
  deriving Repr, DecidableEq

/-- Errors thrown (synchronously or as a rejection) by `generateStream`. -/
inductive GenError
  | busy
  | pipelineNotLoaded
  | modelError
  deriving Repr, DecidableEq

deriving instance DecidableEq for Except

/-- `ChatEngine.stop()`: abort only a self-owned controller that has an
`abort` method and is not yet aborted, then clear the generating flags. -/
def ChatEngine.stop (s : Session) : Session :=
  let s :=
    if s.ownAbortController ∧ s.ctl.canAbort ∧ s.ctl.aborted = false then
      { s with ctl := { s.ctl with aborted := true }, abortCalls := s.abortCalls + 1 }
    else s
  { s with isGenerating := false, ownAbortController := false }

/-- `params.maxLength || 4096`. -/
def effMaxLength (maxLength : ℕ) : ℕ :=
  if maxLength = 0 then 4096 else maxLength

/-- Index of the first occurrence of `seq` in `t` (JS `t.indexOf(seq)`),
`none` when absent. -/
def indexOfSeq (seq : List Char) : List Char → Option ℕ
  | [] => if seq.isPrefixOf [] then some 0 else none
  | c :: rest =>
    if seq.isPrefixOf (c :: rest) then some 0
    else (indexOfSeq seq rest).map (fun n => n + 1)

/-- `ChatEngine.shouldStop`: some stop sequence occurs in the text. -/
def shouldStop (stopSequences : List (List Char)) (text : List Char) : Bool :=
  stopSequences.any (fun seq => (indexOfSeq seq text).isSome)

/-- `ChatEngine.trimStopSequence`: cut at the first occurrence of the
first matching stop sequence. -/
def trimStopSequence (stopSequences : List (List Char)) (text : List Char) : List Char :=
  match stopSequences with
  | [] => text
  | seq :: rest =>
    match indexOfSeq seq text with
    | some i => text.take i
    | none => trimStopSequence rest text

/-- The default `this.stopSequences`. -/
def defaultStopSequences : List (List Char) :=
  ["</s>".toList, "\n\nUser:".toList, "\n\nHuman:".toList, "[END]".toList]

/-- The `TextStreamer` `callback_function`: skip when the signal is
already aborted; append the fragment; on a stop-sequence match trim and
`stop()`; past the length limit `stop()`; otherwise report `onToken`. -/
def tokenStep (maxLength : ℕ) (stopSequences : List (List Char))
    (s : Session) (text : List Char) : Session × List CB :=
  if s.ctl.aborted then (s, [])
  else if shouldStop stopSequences (s.generatedText ++ text) then
    (ChatEngine.stop
      { s with generatedText := trimStopSequence stopSequences (s.generatedText ++ text),
               tokenCount := s.tokenCount + 1 }, [])
  else if effMaxLength maxLength < (s.generatedText ++ text).length then
    (ChatEngine.stop
      { s with generatedText := s.generatedText ++ text,
               tokenCount := s.tokenCount + 1 }, [])
  else
    ({ s with generatedText := s.generatedText ++ text, tokenCount := s.tokenCount + 1 },
     [CB.onToken text])

/-- One environment event. The timeout handler is
`if (this.isGenerating) { this.stop(); onError(timeout) }`. -/
def eventStep (maxLength : ℕ) (stopSequences : List (List Char))
    (s : Session) : GenEvent → Session × List CB
  | GenEvent.token text => tokenStep maxLength stopSequences s text
  | GenEvent.extAbort => ({ s with ctl := { s.ctl with aborted := true } }, [])
  | GenEvent.timeout =>
    if s.isGenerating then (ChatEngine.stop s, [CB.onErrorTimeout]) else (s, [])
  | GenEvent.stopCall => (ChatEngine.stop s, [])

/-- Fold a script of events, accumulating the callback trace. -/
def runEvents (maxLength : ℕ) (stopSequences : List (List Char)) :
    Session → List GenEvent → Session × List CB
  | s, [] => (s, [])
  | s, ev :: rest =>
    let (s', cbs) := eventStep maxLength stopSequences s ev
    let (s'', cbs') := runEvents maxLength stopSequences s' rest
    (s'', cbs ++ cbs')

/-- The `finally` block: clear the generating flag, drop the
controller slot ownership. -/
def finallyCleanup (s : Session) : Session :=
  { s with isGenerating := false, ownAbortController := false }

/-- Settlement of the pipeline promise: on resolution, report the final
assembled text; on rejection, the `AbortError`-or-aborted-signal path is
a success that reports the accumulated partial text with
`aborted: true`, every other rejection surfaces `onError` and
rethrows. -/
def finishGen (s : Session) : PipeTerm → Session × List CB × Except GenError (List Char)
  | PipeTerm.resolve finalText =>
    (finallyCleanup s, [CB.onDone finalText false], Except.ok finalText)
  | PipeTerm.reject isAbortError =>
    if isAbortError ∨ s.ctl.aborted then
      (finallyCleanup s, [CB.onDone s.generatedText true], Except.ok s.generatedText)
    else
      (finallyCleanup s, [CB.onErrorModel], Except.error GenError.modelError)

/-- Engine-level state between sessions. -/
structure EngineState where
  isGenerating : Bool
  stopSequences : List (List Char)
  deriving Repr, DecidableEq

/-- Outcome of one `generateStream` call: final engine state, the
session's final state (`none` when the call threw before starting one),
the callback trace, and the returned text or thrown error. -/
structure GenOutcome where
  engine : EngineState
  finalSession : Option Session
  callbacks : List CB
  result : Except GenError (List Char)
  deriving Repr, DecidableEq

/-- The session state right after the controller-ownership setup:
a caller-supplied signal (with its current aborted flag) is wrapped
without an abort method; otherwise the engine creates its own
controller. -/
def initSession (externalSignal : Option Bool) : Session :=
  let ctl : Ctl :=
    match externalSignal with
    | some sigAborted => ⟨false, sigAborted⟩
    | none => ⟨true, false⟩
  ⟨ctl, externalSignal.isNone, [], 0, true, 0⟩

/-- `ChatEngine.generateStream`: fail fast when busy, fail when the text
generation pipeline is not loaded, otherwise run the session over the
event script and the pipeline settlement. -/
def generateStream (st : EngineState) (hasPipeline : Bool) (externalSignal : Option Bool)
    (maxLength : ℕ) (events : List GenEvent) (term : PipeTerm) : GenOutcome :=
  if st.isGenerating then ⟨st, none, [], Except.error GenError.busy⟩
  else if hasPipeline = false then ⟨st, none, [], Except.error GenError.pipelineNotLoaded⟩
  else
    let s0 := initSession externalSignal
    let (s1, cbs1) := runEvents maxLength st.stopSequences s0 events
    let (s2, cbs2, res) := finishGen s1 term
    ⟨{ st with isGenerating := false }, some s2, cbs1 ++ cbs2, res⟩

/-! ## Claim C3 — the two token estimators -/

/-- C3, counterexample: the ingestion chunker's estimator and the RAG
budgeter's estimator are not extensionally equal — they already differ
on the one-character text `"a"` (`approximateTokens = 2`,
`estimateTokens = 1`). -/
theorem C3_estimators_differ_counterexample :
    ¬ (approximateTokens ('a' :: []) = estimateTokens ('a' :: [])) := by
  decide

/-- C3 (amended): the two estimators are distinct functions — the
chunker uses `ceil(words/0.75)` and the RAG budgeter
`ceil((chars/4 + words/0.75)/2)` — and they agree exactly when the two
averaged estimates coincide, in particular on every text with
`3 * chars = 16 * words` (character estimate equal to word estimate). -/
theorem C3_estimators_agree_on_balanced_texts (t : List Char)
    (h : 3 * t.length = 16 * (jsSplitWS t).length) :
    estimateTokens t = approximateTokens t := by
  unfold estimateTokens approximateTokens
  omega

/-- C3, witness: a concrete balanced text on which the theorem applies
(16 characters, 3 words, both estimators give 4). -/
theorem C3_estimators_agree_witness :
    3 * ("aaaa bbbbb ccccc".toList).length = 16 * (jsSplitWS "aaaa bbbbb ccccc".toList).length ∧
    estimateTokens "aaaa bbbbb ccccc".toList = approximateTokens "aaaa bbbbb ccccc".toList :=
  ⟨by decide, C3_estimators_agree_on_balanced_texts _ (by decide)⟩

/-! ## Claim C4 — chunking whitespace-only input -/

theorem jsSplitWSGo_all_ws (s : List Char) (h : ∀ c ∈ s, jsIsWS c) :
    jsSplitWSGo s [] true = [[]] := by
  induction s with
  | nil => rfl
  | cons c rest ih =>
    have hc : jsIsWS c := h c (List.mem_cons_self c rest)
    simp only [jsSplitWSGo, hc, if_true]
    exact ih (fun x hx => h x (List.mem_cons_of_mem c hx))

theorem jsSplitWS_of_all_ws {s : List Char} (hs : s ≠ []) (h : ∀ c ∈ s, jsIsWS c) :
    jsSplitWS s = [[], []] := by
  match s, hs with
  | c :: rest, _ =>
    have hc : jsIsWS c := h c (List.mem_cons_self c rest)
    have htail : jsSplitWSGo rest [] true = [[]] :=
      jsSplitWSGo_all_ws rest (fun x hx => h x (List.mem_cons_of_mem c hx))
    simp [jsSplitWS, jsSplitWSGo, hc, htail]

theorem chunkLoop_single_empty (d : ℕ) :
    chunkLoop d 800 200 [[]] 0 [] 0 0 = [⟨d, [], 0, 0, 1, 2⟩] := by
  rfl

theorem chunkLoop_two_empty (d : ℕ) :
    chunkLoop d 800 200 [[], []] 0 [] 0 0 = [⟨d, [' '], 0, 0, 2, 4⟩] := by
  rfl

/-- C4, counterexample: at the default parameters, `chunkText` on the
empty input does not return an empty chunk list — it emits a single
chunk with empty text. -/
theorem C4_empty_input_counterexample :
    ¬ (chunkText ([] : List Char) 0 = []) := by
  decide

/-- C4 (amended): for empty or whitespace-only input the chunker emits
exactly one chunk, and that chunk's text consists only of whitespace
(it is `""` for empty input and `" "` for whitespace-only input). -/
theorem C4_whitespace_input_single_chunk (s : List Char) (d : ℕ)
    (h : ∀ c ∈ s, jsIsWS c) :
    (chunkText s d).length = 1 ∧
    ∀ ch ∈ chunkText s d, ∀ c ∈ ch.text, jsIsWS c := by
  by_cases hs : s = []
  · subst hs
    have heq : chunkText ([] : List Char) d = [⟨d, [], 0, 0, 1, 2⟩] :=
      chunkLoop_single_empty d
    rw [heq]
    refine ⟨rfl, ?_⟩
    intro ch hch c hc
    simp only [List.mem_singleton] at hch
    subst hch
    simp at hc
  · have hsplit : jsSplitWS s = [[], []] := jsSplitWS_of_all_ws hs h
    have heq : chunkText s d = [⟨d, [' '], 0, 0, 2, 4⟩] := by
      unfold chunkText
      rw [hsplit]
      exact chunkLoop_two_empty d
    rw [heq]
    refine ⟨rfl, ?_⟩
    intro ch hch c hc
    simp only [List.mem_singleton] at hch
    subst hch
    simp only [List.mem_singleton] at hc
    subst hc
    decide

/-- C4, witness: the amended theorem applied to the whitespace-only
input `" "`. -/
theorem C4_whitespace_input_witness :
    (chunkText [' '] 3).length = 1 ∧
    ∀ ch ∈ chunkText [' '] 3, ∀ c ∈ ch.text, jsIsWS c :=
  C4_whitespace_input_single_chunk [' '] 3 (by decide)

/-! ## Claim C7 — busy rejection -/

/-- C7: while a generation session is active, a further
`generateStream` call throws the busy error immediately: the engine
state is untouched, no session is started, no callback runs. -/
theorem C7_busy_rejection (st : EngineState) (hasPipeline : Bool)
    (externalSignal : Option Bool) (maxLength : ℕ) (events : List GenEvent)
    (term : PipeTerm) (h : st.isGenerating = true) :
    generateStream st hasPipeline externalSignal maxLength events term =
      ⟨st, none, [], Except.error GenError.busy⟩ := by
  simp [generateStream, h]

/-- C7, witness: the busy rejection at a concrete active engine state. -/
theorem C7_busy_rejection_witness :
    generateStream ⟨true, defaultStopSequences⟩ true none 0
        [GenEvent.token ['x']] (PipeTerm.resolve ['x']) =
      ⟨⟨true, defaultStopSequences⟩, none, [], Except.error GenError.busy⟩ :=
  C7_busy_rejection _ _ _ _ _ _ rfl

/-! ## Claim C10 — deleting an unknown document -/

/-- C10: `deleteDocument` on a docId with no stored document and no
stored chunks succeeds with `deletedChunks = 0` yet still decrements
the `totalDocuments` counter by one (leaving documents, chunks and
vectors untouched), so the counter drifts below the true count. -/
theorem C10_delete_unknown_decrements {V : Type} (st : StoreState V) (docId : ℕ)
    (hdoc : ∀ d ∈ st.documents, d.id ≠ docId)
    (hch : ∀ ch ∈ st.chunks, ch.docId ≠ docId) :
    (deleteDocument st docId).2 = 0 ∧
    (deleteDocument st docId).1.config.totalDocuments = st.config.totalDocuments - 1 ∧
    (deleteDocument st docId).1.documents = st.documents ∧
    (deleteDocument st docId).1.chunks = st.chunks ∧
    (deleteDocument st docId).1.vectors = st.vectors := by
  have hfilter : st.chunks.filter (fun ch => decide (ch.docId = docId)) = [] := by
    rw [List.filter_eq_nil_iff]
    intro ch hmem
    simpa using hch ch hmem
  unfold deleteDocument
  rw [hfilter]
  simp
  intro a ha
  exact hdoc a ha

/-- C10, witness: on an empty store whose metadata says
`totalDocuments = 0`, deleting the unknown id 5 reports zero deleted
chunks and drives the counter to `-1 < 0`. -/
theorem C10_delete_unknown_witness :
    (deleteDocument (⟨[], [], [], ⟨800, 200, none, 0, 0⟩⟩ : StoreState Unit) 5).2 = 0 ∧
    (deleteDocument (⟨[], [], [], ⟨800, 200, none, 0, 0⟩⟩ : StoreState Unit) 5).1.config.totalDocuments = 0 - 1 ∧
    (deleteDocument (⟨[], [], [], ⟨800, 200, none, 0, 0⟩⟩ : StoreState Unit) 5).1.config.totalDocuments < 0 := by
  have h := C10_delete_unknown_decrements (V := Unit)
    (⟨[], [], [], ⟨800, 200, none, 0, 0⟩⟩ : StoreState Unit) 5
    (by intro d hd; simp at hd) (by intro ch hch; simp at hch)
  exact ⟨h.1, h.2.1, by decide⟩

/-! ## Claim C8 — cancellation ownership -/

theorem stop_of_no_abort_method (s : Session) (h : s.ctl.canAbort = false) :
    (ChatEngine.stop s).ctl = s.ctl ∧ (ChatEngine.stop s).abortCalls = s.abortCalls := by
  unfold ChatEngine.stop
  rw [if_neg]
  · exact ⟨rfl, rfl⟩
  · intro hcond
    rw [h] at hcond
    exact Bool.noConfusion hcond.2.1

theorem tokenStep_no_abort (maxLength : ℕ) (seqs : List (List Char))
    (s : Session) (text : List Char) (h : s.ctl.canAbort = false) :
    (tokenStep maxLength seqs s text).1.ctl.canAbort = false ∧
    (tokenStep maxLength seqs s text).1.abortCalls = s.abortCalls := by
  unfold tokenStep
  split_ifs with h1 h2 h3
  · exact ⟨h, rfl⟩
  · have hs := stop_of_no_abort_method
      { s with generatedText := trimStopSequence seqs (s.generatedText ++ text),
               tokenCount := s.tokenCount + 1 } h
    exact ⟨by rw [hs.1]; exact h, hs.2⟩
  · have hs := stop_of_no_abort_method
      { s with generatedText := s.generatedText ++ text, tokenCount := s.tokenCount + 1 } h
    exact ⟨by rw [hs.1]; exact h, hs.2⟩
  · exact ⟨h, rfl⟩

theorem eventStep_no_abort (maxLength : ℕ) (seqs : List (List Char))
    (s : Session) (ev : GenEvent) (h : s.ctl.canAbort = false) :
    (eventStep maxLength seqs s ev).1.ctl.canAbort = false ∧
    (eventStep maxLength seqs s ev).1.abortCalls = s.abortCalls := by
  cases ev with
  | token text => exact tokenStep_no_abort maxLength seqs s text h
  | extAbort => exact ⟨h, rfl⟩
  | timeout =>
    unfold eventStep
    split_ifs with hg
    · have hs := stop_of_no_abort_method s h
      exact ⟨by rw [hs.1]; exact h, hs.2⟩
    · exact ⟨h, rfl⟩
  | stopCall =>
    have hs := stop_of_no_abort_method s h
    refine ⟨?_, hs.2⟩
    show (ChatEngine.stop s).ctl.canAbort = false
    rw [hs.1]
    exact h

theorem runEvents_no_abort (maxLength : ℕ) (seqs : List (List Char))
    (events : List GenEvent) :
    ∀ s : Session, s.ctl.canAbort = false →
      (runEvents maxLength seqs s events).1.ctl.canAbort = false ∧
      (runEvents maxLength seqs s events).1.abortCalls = s.abortCalls := by
  induction events with
  | nil => exact fun s h => ⟨h, rfl⟩
  | cons ev rest ih =>
    intro s h
    have hstep := eventStep_no_abort maxLength seqs s ev h
    have hrec := ih (eventStep maxLength seqs s ev).1 hstep.1
    refine ⟨?_, ?_⟩
    · simpa [runEvents] using hrec.1
    · simpa [runEvents, hrec.2] using hstep.2

/-- C8: cancellation-signal ownership.  (a) In a session started with a
caller-supplied signal, no path of the run — token callbacks with their
stop-sequence and length-limit stops, the timeout handler, external
`stop()` calls, or final settlement — ever invokes the abort mechanism
of that external signal (`abortCalls` stays `0`).  (b) For a session
whose controller the engine created itself, `stop()` does trigger the
abort on that controller. -/
theorem C8_cancellation_ownership :
    (∀ (st : EngineState) (sigAborted : Bool) (maxLength : ℕ)
       (events : List GenEvent) (term : PipeTerm) (s : Session),
       (generateStream st true (some sigAborted) maxLength events term).finalSession = some s →
       s.abortCalls = 0) ∧
    (∀ s : Session, s.ownAbortController = true → s.ctl.canAbort = true →
       s.ctl.aborted = false →
       (ChatEngine.stop s).ctl.aborted = true ∧
       (ChatEngine.stop s).abortCalls = s.abortCalls + 1) := by
  constructor
  · intro st sigAborted maxLength events term s hs
    by_cases hg : st.isGenerating
    · simp [generateStream, hg] at hs
    · have h0 : (initSession (some sigAborted)).ctl.canAbort = false := rfl
      have hrun := runEvents_no_abort maxLength st.stopSequences events
        (initSession (some sigAborted)) h0
      have hfin :
          (generateStream st true (some sigAborted) maxLength events term).finalSession =
            some (finishGen (runEvents maxLength st.stopSequences
              (initSession (some sigAborted)) events).1 term).1 := by
        simp [generateStream, hg]
      rw [hfin] at hs
      have hsession := Option.some.inj hs
      have habort : (finishGen (runEvents maxLength st.stopSequences
          (initSession (some sigAborted)) events).1 term).1.abortCalls =
          (runEvents maxLength st.stopSequences
            (initSession (some sigAborted)) events).1.abortCalls := by
        cases term with
        | resolve finalText => rfl
        | reject isAbortError =>
          unfold finishGen
          dsimp only
          by_cases hcase : isAbortError = true ∨
              (runEvents maxLength st.stopSequences
                (initSession (some sigAborted)) events).1.ctl.aborted = true
          · rw [if_pos hcase]
            rfl
          · rw [if_neg hcase]
            rfl
      rw [← hsession, habort, hrun.2]
      rfl
  · intro s hown hcan habt
    unfold ChatEngine.stop
    rw [if_pos ⟨hown, hcan, habt⟩]
    exact ⟨rfl, rfl⟩

/-- C8, witness: a run over an external signal with a token, a
`stop()` call, a timeout firing and an abort rejection keeps
`abortCalls = 0`; and `stop()` on a fresh self-owned session aborts its
own controller. -/
theorem C8_cancellation_ownership_witness :
    (generateStream ⟨false, defaultStopSequences⟩ true (some false) 0
        [GenEvent.token ['x'], GenEvent.stopCall, GenEvent.timeout]
        (PipeTerm.reject true)).finalSession =
      some ⟨⟨false, false⟩, false, ['x'], 1, false, 0⟩ ∧
    (⟨⟨false, false⟩, false, ['x'], 1, false, 0⟩ : Session).abortCalls = 0 ∧
    (ChatEngine.stop ⟨⟨true, false⟩, true, [], 0, true, 0⟩).ctl.aborted = true ∧
    (ChatEngine.stop ⟨⟨true, false⟩, true, [], 0, true, 0⟩).abortCalls = 0 + 1 :=
  ⟨by decide,
   C8_cancellation_ownership.1 ⟨false, defaultStopSequences⟩ false 0
     [GenEvent.token ['x'], GenEvent.stopCall, GenEvent.timeout]
     (PipeTerm.reject true) _ (by decide),
   (C8_cancellation_ownership.2 ⟨⟨true, false⟩, true, [], 0, true, 0⟩ rfl rfl rfl).1,
   (C8_cancellation_ownership.2 ⟨⟨true, false⟩, true, [], 0, true, 0⟩ rfl rfl rfl).2⟩

/-! ## Claim C9 — cancellation reported as success -/

theorem runEvents_only_tokens (maxLength : ℕ) (seqs : List (List Char))
    (events : List GenEvent) (hto : GenEvent.timeout ∉ events) :
    ∀ s : Session, ∀ cb ∈ (runEvents maxLength seqs s events).2,
      ∃ t, cb = CB.onToken t := by
  induction events with
  | nil =>
    intro s cb hcb
    simp [runEvents] at hcb
  | cons ev rest ih =>
    intro s cb hcb
    have hto' : GenEvent.timeout ∉ rest := fun hmem => hto (List.mem_cons_of_mem ev hmem)
    simp only [runEvents, List.mem_append] at hcb
    rcases hcb with hcb | hcb
    · cases ev with
      | token text =>
        have hcb' : cb ∈ (tokenStep maxLength seqs s text).2 := hcb
        unfold tokenStep at hcb'
        split at hcb'
        · simp at hcb'
        · split at hcb'
          · simp at hcb'
          · split at hcb'
            · simp at hcb'
            · simp only [List.mem_singleton] at hcb'
              exact ⟨_, hcb'⟩
      | extAbort => simp [eventStep] at hcb
      | timeout => exact absurd (List.mem_cons_self _ _) hto
      | stopCall => simp [eventStep] at hcb
    · exact ih hto' _ cb hcb

/-- C9: a generation session whose pipeline call rejects by
cancellation — an `AbortError`, or any rejection while the abort signal
is set — is reported as success, not error: the `onDone` callback fires
with the partial text accumulated so far and `aborted: true`,
`generateStream` returns that partial text instead of rethrowing, and
(absent a timeout, which is a different outcome) no `onError` callback
occurs anywhere in the run. -/
theorem C9_cancellation_is_success (st : EngineState) (externalSignal : Option Bool)
    (maxLength : ℕ) (events : List GenEvent) (isAbortError : Bool)
    (hidle : st.isGenerating = false)
    (hcancel : isAbortError = true ∨
      (runEvents maxLength st.stopSequences (initSession externalSignal) events).1.ctl.aborted = true) :
    (generateStream st true externalSignal maxLength events
        (PipeTerm.reject isAbortError)).result =
      Except.ok (runEvents maxLength st.stopSequences
        (initSession externalSignal) events).1.generatedText ∧
    (generateStream st true externalSignal maxLength events
        (PipeTerm.reject isAbortError)).callbacks =
      (runEvents maxLength st.stopSequences (initSession externalSignal) events).2 ++
        [CB.onDone (runEvents maxLength st.stopSequences
          (initSession externalSignal) events).1.generatedText true] ∧
    (GenEvent.timeout ∉ events →
      ∀ cb ∈ (generateStream st true externalSignal maxLength events
          (PipeTerm.reject isAbortError)).callbacks,
        cb ≠ CB.onErrorTimeout ∧ cb ≠ CB.onErrorModel) := by
  have hfin : finishGen (runEvents maxLength st.stopSequences
      (initSession externalSignal) events).1 (PipeTerm.reject isAbortError) =
      (finallyCleanup (runEvents maxLength st.stopSequences
        (initSession externalSignal) events).1,
       [CB.onDone (runEvents maxLength st.stopSequences
         (initSession externalSignal) events).1.generatedText true],
       Except.ok (runEvents maxLength st.stopSequences
         (initSession externalSignal) events).1.generatedText) := by
    unfold finishGen
    dsimp only
    rw [if_pos hcancel]
  refine ⟨?_, ?_, ?_⟩
  · simp [generateStream, hidle, hfin]
  · simp [generateStream, hidle, hfin]
  · intro hto cb hcb
    have hcbs : (generateStream st true externalSignal maxLength events
        (PipeTerm.reject isAbortError)).callbacks =
        (runEvents maxLength st.stopSequences (initSession externalSignal) events).2 ++
          [CB.onDone (runEvents maxLength st.stopSequences
            (initSession externalSignal) events).1.generatedText true] := by
      simp [generateStream, hidle, hfin]
    rw [hcbs] at hcb
    rcases List.mem_append.mp hcb with hmem | hmem
    · obtain ⟨t, rfl⟩ := runEvents_only_tokens maxLength st.stopSequences events hto _ cb hmem
      exact ⟨fun h => CB.noConfusion h, fun h => CB.noConfusion h⟩
    · simp only [List.mem_singleton] at hmem
      subst hmem
      exact ⟨fun h => CB.noConfusion h, fun h => CB.noConfusion h⟩

/-- C9, witness: an externally signalled session that accumulated
`"hi"` and was then rejected with an `AbortError` returns
`Except.ok "hi"` and reports `onDone "hi" (aborted := true)`. -/
theorem C9_cancellation_is_success_witness :
    (generateStream ⟨false, defaultStopSequences⟩ true (some false) 0
        [GenEvent.token ['h', 'i']] (PipeTerm.reject true)).result =
      Except.ok (runEvents 0 defaultStopSequences (initSession (some false))
        [GenEvent.token ['h', 'i']]).1.generatedText ∧
    (generateStream ⟨false, defaultStopSequences⟩ true (some false) 0
        [GenEvent.token ['h', 'i']] (PipeTerm.reject true)).callbacks =
      (runEvents 0 defaultStopSequences (initSession (some false))
        [GenEvent.token ['h', 'i']]).2 ++
        [CB.onDone (runEvents 0 defaultStopSequences (initSession (some false))
          [GenEvent.token ['h', 'i']]).1.generatedText true] :=
  ⟨(C9_cancellation_is_success ⟨false, defaultStopSequences⟩ (some false) 0
      [GenEvent.token ['h', 'i']] true rfl (Or.inl rfl)).1,
   (C9_cancellation_is_success ⟨false, defaultStopSequences⟩ (some false) 0
      [GenEvent.token ['h', 'i']] true rfl (Or.inl rfl)).2.1⟩

/-! ## Claim C5 — chunking totality -/

/-- `w` occurs contiguously inside `t`. -/
def OccursIn (w t : List Char) : Prop :=
  ∃ pre post, t = pre ++ w ++ post

theorem joinSp_cons (w : List Char) (ws : List (List Char)) (h : ws ≠ []) :
    joinSp (w :: ws) = w ++ ' ' :: joinSp ws := by
  match ws, h with
  | w2 :: rest, _ => rfl

theorem joinSp_append_length (A B : List (List Char)) (hA : A ≠ []) (hB : B ≠ []) :
    (joinSp (A ++ B)).length = (joinSp A).length + 1 + (joinSp B).length := by
  induction A with
  | nil => cases hA rfl
  | cons w rest ih =>
    by_cases hr : rest = []
    · subst hr
      rw [List.singleton_append, joinSp_cons w B hB]
      simp [joinSp]
      omega
    · have hrB : rest ++ B ≠ [] := by
        intro hmt
        exact hr (List.append_eq_nil.mp hmt).1
      rw [List.cons_append, joinSp_cons w (rest ++ B) hrB, joinSp_cons w rest hr]
      simp only [List.length_append, List.length_cons, ih hr]
      omega

theorem occursIn_joinSp {w : List Char} {ws : List (List Char)} (h : w ∈ ws) :
    OccursIn w (joinSp ws) := by
  induction ws with
  | nil => cases h
  | cons w0 rest ih =>
    by_cases hr : rest = []
    · subst hr
      have hw : w = w0 := by simpa using h
      subst hw
      exact ⟨[], [], by simp [joinSp]⟩
    · rw [joinSp_cons w0 rest hr]
      rcases List.mem_cons.mp h with heq | hmem
      · subst heq
        exact ⟨[], ' ' :: joinSp rest, by simp⟩
      · obtain ⟨pre, post, heq⟩ := ih hmem
        refine ⟨w0 ++ ' ' :: pre, post, ?_⟩
        rw [heq]
        simp

theorem jsSliceNeg_ne_nil (n : ℕ) (l : List α) (h : l ≠ []) : jsSliceNeg n l ≠ [] := by
  unfold jsSliceNeg
  split_ifs with h0
  · exact h
  · have hn : 0 < n := Nat.pos_of_ne_zero h0
    have hlen : 0 < l.length := List.length_pos.mpr h
    intro hempty
    have hd := congrArg List.length hempty
    rw [List.length_drop] at hd
    simp only [List.length_nil] at hd
    omega

/-- Total length of the text of all chunks. -/
def sumTextLen (chunks : List Chunk) : ℕ :=
  (chunks.map (fun ch => ch.text.length)).sum

theorem chunkLoop_covers (docId cs ov : ℕ) :
    ∀ (rest : List (List Char)) (i : ℕ) (cur : List (List Char)) (curTok pos : ℕ)
      (w : List Char), (w ∈ cur ∨ w ∈ rest) →
      ∃ ch ∈ chunkLoop docId cs ov rest i cur curTok pos, OccursIn w ch.text := by
  intro rest
  induction rest with
  | nil =>
    intro i cur curTok pos w hw
    rcases hw with hw | hw
    · have hcur : 0 < cur.length :=
        List.length_pos.mpr (fun hnil => by subst hnil; cases hw)
      refine ⟨⟨docId, joinSp cur, pos, (i : ℤ) - cur.length, i, curTok⟩, ?_, occursIn_joinSp hw⟩
      simp [chunkLoop, hcur]
    · cases hw
  | cons w0 rest ih =>
    intro i cur curTok pos w hw
    unfold chunkLoop
    split_ifs with hcond
    · rcases hw with hw | hw
      · exact ⟨⟨docId, joinSp cur, pos, (i : ℤ) - cur.length, i, curTok⟩,
          List.mem_cons_self _ _, occursIn_joinSp hw⟩
      · rcases List.mem_cons.mp hw with heq | hmem
        · subst heq
          obtain ⟨ch, hch, hocc⟩ := ih (i + 1)
            (jsSliceNeg (cur.length * ov / cs) cur ++ [w])
            (approximateTokens (joinSp (jsSliceNeg (cur.length * ov / cs) cur)) +
              approximateTokens w) (pos + 1) w
            (Or.inl (List.mem_append_right _ (List.mem_singleton_self w)))
          exact ⟨ch, List.mem_cons_of_mem _ hch, hocc⟩
        · obtain ⟨ch, hch, hocc⟩ := ih (i + 1)
            (jsSliceNeg (cur.length * ov / cs) cur ++ [w0])
            (approximateTokens (joinSp (jsSliceNeg (cur.length * ov / cs) cur)) +
              approximateTokens w0) (pos + 1) w (Or.inr hmem)
          exact ⟨ch, List.mem_cons_of_mem _ hch, hocc⟩
    · rcases hw with hw | hw
      · exact ih (i + 1) (cur ++ [w0]) (curTok + approximateTokens w0) pos w
          (Or.inl (List.mem_append_left _ hw))
      · rcases List.mem_cons.mp hw with heq | hmem
        · subst heq
          exact ih (i + 1) (cur ++ [w]) (curTok + approximateTokens w) pos w
            (Or.inl (List.mem_append_right _ (List.mem_singleton_self w)))
        · exact ih (i + 1) (cur ++ [w0]) (curTok + approximateTokens w0) pos w (Or.inr hmem)

theorem chunkLoop_length (docId cs ov : ℕ) :
    ∀ (rest : List (List Char)) (i : ℕ) (cur : List (List Char)) (curTok pos : ℕ),
      (joinSp (cur ++ rest)).length ≤
        sumTextLen (chunkLoop docId cs ov rest i cur curTok pos) := by
  intro rest
  induction rest with
  | nil =>
    intro i cur curTok pos
    by_cases hcur : 0 < cur.length
    · simp [chunkLoop, hcur, sumTextLen]
    · have hnil : cur = [] := by
        cases cur with
        | nil => rfl
        | cons a l => simp at hcur
      subst hnil
      simp [chunkLoop, joinSp, sumTextLen]
  | cons w0 rest ih =>
    intro i cur curTok pos
    unfold chunkLoop
    split_ifs with hcond
    · have hcur : cur ≠ [] := by
        intro hnil
        subst hnil
        simp at hcond
      have hcur2 : jsSliceNeg (cur.length * ov / cs) cur ≠ [] :=
        jsSliceNeg_ne_nil _ _ hcur
      have hIH := ih (i + 1) (jsSliceNeg (cur.length * ov / cs) cur ++ [w0])
        (approximateTokens (joinSp (jsSliceNeg (cur.length * ov / cs) cur)) +
          approximateTokens w0) (pos + 1)
      have hstep : sumTextLen (⟨docId, joinSp cur, pos, (i : ℤ) - cur.length, i, curTok⟩ ::
          chunkLoop docId cs ov rest (i + 1)
            (jsSliceNeg (cur.length * ov / cs) cur ++ [w0])
            (approximateTokens (joinSp (jsSliceNeg (cur.length * ov / cs) cur)) +
              approximateTokens w0) (pos + 1)) =
          (joinSp cur).length + sumTextLen (chunkLoop docId cs ov rest (i + 1)
            (jsSliceNeg (cur.length * ov / cs) cur ++ [w0])
            (approximateTokens (joinSp (jsSliceNeg (cur.length * ov / cs) cur)) +
              approximateTokens w0) (pos + 1)) := by
        simp [sumTextLen]
      rw [hstep]
      have hsplit1 : (joinSp (cur ++ w0 :: rest)).length =
          (joinSp cur).length + 1 + (joinSp (w0 :: rest)).length :=
        joinSp_append_length cur (w0 :: rest) hcur (by simp)
      have hsplit2 : (joinSp ((jsSliceNeg (cur.length * ov / cs) cur ++ [w0]) ++ rest)).length =
          (joinSp (jsSliceNeg (cur.length * ov / cs) cur)).length + 1 +
            (joinSp (w0 :: rest)).length := by
        rw [← List.append_cons]
        exact joinSp_append_length _ (w0 :: rest) hcur2 (by simp)
      rw [hsplit2] at hIH
      omega
    · have hIH := ih (i + 1) (cur ++ [w0]) (curTok + approximateTokens w0) pos
      rw [← List.append_cons] at hIH
      exact hIH

/-- C5, counterexample: chunking normalises whitespace (words are
re-joined with single spaces), so on `"a  b"` (4 characters, double
space) the emitted chunks total only 3 characters — the claimed
`sum(len(chunk.text)) ≥ len(original_text)` fails. -/
theorem C5_chunking_total_counterexample :
    ¬ ((['a', ' ', ' ', 'b'] : List Char).length ≤
        sumTextLen (chunkText ['a', ' ', ' ', 'b'] 0)) := by
  decide

/-- C5 (amended): chunking is total up to whitespace normalisation —
for every input and every parameter choice, the total length of all
chunk texts is at least the length of the whitespace-normalised input
(its `split(/\s+/)` words re-joined by single spaces), and every
whitespace-delimited word of the input occurs contiguously in at least
one emitted chunk. -/
theorem C5_chunking_total (text : List Char) (docId cs ov : ℕ) :
    (joinSp (jsSplitWS text)).length ≤ sumTextLen (chunkText text docId cs ov) ∧
    ∀ w ∈ jsSplitWS text, ∃ ch ∈ chunkText text docId cs ov, OccursIn w ch.text := by
  constructor
  · have h := chunkLoop_length docId cs ov (jsSplitWS text) 0 [] 0 0
    simpa [chunkText] using h
  · intro w hw
    exact chunkLoop_covers docId cs ov (jsSplitWS text) 0 [] 0 0 w (Or.inr hw)

/-- C5, witness: the amended theorem applied to `"a  b"`: the
normalised length 3 is covered and the word `"a"` occurs in a chunk. -/
theorem C5_chunking_total_witness :
    (joinSp (jsSplitWS ['a', ' ', ' ', 'b'])).length ≤
      sumTextLen (chunkText ['a', ' ', ' ', 'b'] 0 800 200) ∧
    ∃ ch ∈ chunkText ['a', ' ', ' ', 'b'] 0 800 200, OccursIn ['a'] ch.text :=
  ⟨(C5_chunking_total ['a', ' ', ' ', 'b'] 0 800 200).1,
   (C5_chunking_total ['a', ' ', ' ', 'b'] 0 800 200).2 ['a'] (by decide)⟩

/-! ## Claim C2 — token-budgeted context assembly -/

/-- Total estimated token cost of a result list. -/
def sumTokenCost (results : List RagResult) : ℕ :=
  (results.map (fun r => estimateTokens r.chunk.text)).sum

theorem buildContextLoop_spec (maxCtx topK : ℕ) :
    ∀ (rest : List RagResult) (chunks : List ContextChunk)
      (sources : List SourceEntry) (cur : ℕ),
      chunks.length < topK → cur ≤ maxCtx →
      ∃ n, n ≤ rest.length ∧
        (buildContextLoop maxCtx topK rest chunks sources cur).1 =
          chunks ++ (rest.take n).map ragChunkOf ∧
        (buildContextLoop maxCtx topK rest chunks sources cur).2.2 =
          cur + sumTokenCost (rest.take n) ∧
        (buildContextLoop maxCtx topK rest chunks sources cur).2.2 ≤ maxCtx ∧
        (buildContextLoop maxCtx topK rest chunks sources cur).1.length ≤ topK ∧
        (n = rest.length ∨
          (buildContextLoop maxCtx topK rest chunks sources cur).1.length = topK ∨
          ∃ r, rest.get? n = some r ∧
            maxCtx < (buildContextLoop maxCtx topK rest chunks sources cur).2.2 +
              estimateTokens r.chunk.text) := by
  intro rest
  induction rest with
  | nil =>
    intro chunks sources cur hlen hcur
    refine ⟨0, Nat.le_refl 0, by simp [buildContextLoop], by simp [buildContextLoop, sumTokenCost],
      ?_, ?_, Or.inl rfl⟩
    · simpa [buildContextLoop] using hcur
    · simpa [buildContextLoop] using Nat.le_of_lt hlen
  | cons r rest' ih =>
    intro chunks sources cur hlen hcur
    unfold buildContextLoop
    split_ifs with hover hfull
    · dsimp only
      refine ⟨0, Nat.zero_le _, by simp, by simp [sumTokenCost], hcur, Nat.le_of_lt hlen, ?_⟩
      refine Or.inr (Or.inr ⟨r, rfl, ?_⟩)
      omega
    · dsimp only
      simp only [List.length_append, List.length_singleton] at hfull
      refine ⟨1, by simp, by simp [ragChunkOf], ?_, ?_, ?_, ?_⟩
      · simp [sumTokenCost]
      · omega
      · simp only [List.length_append, List.length_singleton]
        omega
      · refine Or.inr (Or.inl ?_)
        simp only [List.length_append, List.length_singleton]
        omega
    · have hlen' : (chunks ++ [ragChunkOf r]).length < topK := by
        simp only [List.length_append, List.length_singleton] at hfull ⊢
        omega
      have hcur' : cur + estimateTokens r.chunk.text ≤ maxCtx := by omega
      obtain ⟨n', hn'len, h1, h2, h3, h4, h5⟩ :=
        ih (chunks ++ [ragChunkOf r])
          (addSource sources r.document r.chunk.position r.score)
          (cur + estimateTokens r.chunk.text) hlen' hcur'
      refine ⟨n' + 1, by simpa using Nat.succ_le_succ hn'len, ?_, ?_, h3, h4, ?_⟩
      · rw [h1]
        simp [List.append_assoc]
      · rw [h2]
        simp only [List.take_succ_cons, List.map_cons, sumTokenCost, List.sum_cons]
        omega
      · rcases h5 with h5 | h5 | ⟨r', hr', hover'⟩
        · exact Or.inl (by simp [h5])
        · exact Or.inr (Or.inl h5)
        · exact Or.inr (Or.inr ⟨r', by simpa using hr', hover'⟩)

/-- C2, counterexample: at `topK = 0` (where MMR search still returns
one candidate) the loop adds a first chunk before noticing the `topK`
cut-off, so `chunksUsed = 1 > topK` — the claimed
`chunksUsed ≤ topK` fails. -/
theorem C2_budget_counterexample :
    ¬ ((retrieveContextFromResults
          [⟨⟨⟨7, ['h', 'i'], 0, 0, 2, 3⟩, 1⟩, ⟨7, ['d'], ['t'], [], 0, 0⟩, 0⟩]
          ⟨2000, 0, 0, false, 0, true⟩).chunksUsed ≤
        (⟨2000, 0, 0, false, 0, true⟩ : RagConfig).topK) := by
  decide

/-- C2 (amended): for every ranked result list and every configuration
with `topK ≥ 1`, `retrieveContext` accumulates a prefix of the ranked
results in order; the returned `tokensUsed` (the summed estimated cost
of all included chunks) never exceeds `maxContextTokens`, `chunksUsed`
never exceeds `topK`, and iteration stops exactly at the end of the
list, on reaching `topK` chunks, or at the first candidate whose cost
would push the total over budget. -/
theorem C2_budget_respected (results : List RagResult) (config : RagConfig)
    (h : 1 ≤ config.topK) :
    (retrieveContextFromResults results config).tokensUsed ≤ config.maxContextTokens ∧
    (retrieveContextFromResults results config).chunksUsed ≤ config.topK ∧
    ∃ n, n ≤ results.length ∧
      (retrieveContextFromResults results config).chunksUsed = n ∧
      (retrieveContextFromResults results config).tokensUsed =
        sumTokenCost (results.take n) ∧
      (n = results.length ∨ n = config.topK ∨
        ∃ r, results.get? n = some r ∧
          config.maxContextTokens <
            sumTokenCost (results.take n) + estimateTokens r.chunk.text) := by
  by_cases hempty : results.length = 0
  · have hnil : results = [] := List.length_eq_zero.mp hempty
    subst hnil
    refine ⟨?_, ?_, 0, Nat.le_refl 0, ?_, ?_, Or.inl rfl⟩
    · simp [retrieveContextFromResults]
    · simp [retrieveContextFromResults]
    · simp [retrieveContextFromResults]
    · simp [retrieveContextFromResults, sumTokenCost]
  · obtain ⟨n, hnlen, h1, h2, h3, h4, h5⟩ :=
      buildContextLoop_spec config.maxContextTokens config.topK results [] [] 0
        (by simp only [List.length_nil]; omega) (Nat.zero_le _)
    have hchunks : (retrieveContextFromResults results config).chunksUsed =
        (buildContextLoop config.maxContextTokens config.topK results [] [] 0).1.length := by
      unfold retrieveContextFromResults
      rw [if_neg hempty]
    have htokens : (retrieveContextFromResults results config).tokensUsed =
        (buildContextLoop config.maxContextTokens config.topK results [] [] 0).2.2 := by
      unfold retrieveContextFromResults
      rw [if_neg hempty]
    have hlen : (buildContextLoop config.maxContextTokens config.topK results [] [] 0).1.length
        = n := by
      rw [h1]
      simp [List.length_take, Nat.min_eq_left hnlen]
    refine ⟨?_, ?_, n, hnlen, ?_, ?_, ?_⟩
    · rw [htokens]
      exact h3
    · rw [hchunks, hlen]
      rw [hlen] at h4
      exact h4
    · rw [hchunks, hlen]
    · rw [htokens, h2]
      simp
    · rcases h5 with h5 | h5 | ⟨r, hr, hover⟩
      · exact Or.inl h5
      · exact Or.inr (Or.inl (by rw [← hlen, h5]))
      · refine Or.inr (Or.inr ⟨r, hr, ?_⟩)
        rw [h2] at hover
        simpa using hover

/-- C2, witness: the amended theorem applied to a concrete one-element
result list with `topK = 5`. -/
theorem C2_budget_respected_witness :
    (retrieveContextFromResults
        [⟨⟨⟨7, ['h', 'i'], 0, 0, 2, 3⟩, 1⟩, ⟨7, ['d'], ['t'], [], 0, 0⟩, 0⟩]
        ⟨2000, 5, 0, false, 0, true⟩).tokensUsed ≤
      (⟨2000, 5, 0, false, 0, true⟩ : RagConfig).maxContextTokens ∧
    (retrieveContextFromResults
        [⟨⟨⟨7, ['h', 'i'], 0, 0, 2, 3⟩, 1⟩, ⟨7, ['d'], ['t'], [], 0, 0⟩, 0⟩]
        ⟨2000, 5, 0, false, 0, true⟩).chunksUsed ≤
      (⟨2000, 5, 0, false, 0, true⟩ : RagConfig).topK :=
  ⟨(C2_budget_respected
      [⟨⟨⟨7, ['h', 'i'], 0, 0, 2, 3⟩, 1⟩, ⟨7, ['d'], ['t'], [], 0, 0⟩, 0⟩]
      ⟨2000, 5, 0, false, 0, true⟩ (by decide)).1,
   (C2_budget_respected
      [⟨⟨⟨7, ['h', 'i'], 0, 0, 2, 3⟩, 1⟩, ⟨7, ['d'], ['t'], [], 0, 0⟩, 0⟩]
      ⟨2000, 5, 0, false, 0, true⟩ (by decide)).2.1⟩

/-! ## Claim C1 — MMR reranking

Spec-side characterisation, written from the claim: the first selected
result is the first-encountered candidate of maximum relevance, and
each subsequent result is a first-encountered remaining candidate
maximising the MMR score against the already selected ones, until
`topK` are chosen or the candidates are exhausted. -/

/-- `a` sits at index `i` of `l`, carries the maximum value of `f` over
`l`, and every earlier index carries a strictly smaller value (the
first-encountered maximum). -/
def IsFirstArgmax (f : α → ℚ) (l : List α) (i : ℕ) (a : α) : Prop :=
  l.get? i = some a ∧
  (∀ j b, l.get? j = some b → f b ≤ f a) ∧
  (∀ j b, j < i → l.get? j = some b → f b < f a)

theorem argmaxGo_some (f : α → ℚ) :
    ∀ (rest : List α) (k : ℕ) (acc : ℕ × ℚ × α),
      ∃ out, argmaxGo f rest k (some acc) = some out := by
  intro rest
  induction rest with
  | nil => exact fun k acc => ⟨acc, rfl⟩
  | cons a rest' ih =>
    intro k acc
    obtain ⟨j, m, b⟩ := acc
    unfold argmaxGo
    dsimp only
    split_ifs with h
    · exact ih (k + 1) (k, f a, a)
    · exact ih (k + 1) (j, m, b)

theorem argmaxGo_spec (f : α → ℚ) :
    ∀ (rest : List α) (k j : ℕ) (m : ℚ) (b : α) (j' : ℕ) (m' : ℚ) (b' : α),
      argmaxGo f rest k (some (j, m, b)) = some (j', m', b') →
      ((j' = j ∧ m' = m ∧ b' = b ∧ ∀ a ∈ rest, f a ≤ m) ∨
       (∃ t, rest.get? t = some b' ∧ j' = k + t ∧ m' = f b' ∧ m < f b' ∧
         (∀ u c, rest.get? u = some c → f c ≤ f b') ∧
         (∀ u c, u < t → rest.get? u = some c → f c < f b'))) := by
  intro rest
  induction rest with
  | nil =>
    intro k j m b j' m' b' h
    unfold argmaxGo at h
    obtain ⟨h1, h2, h3⟩ := Prod.mk.injEq _ _ _ _ ▸ (Option.some.inj h)
    exact Or.inl ⟨h1.symm ▸ rfl, by simp_all, by simp_all, by simp⟩
  | cons a rest' ih =>
    intro k j m b j' m' b' h
    unfold argmaxGo at h
    dsimp only at h
    split_ifs at h with hlt
    · rcases ih (k + 1) k (f a) a j' m' b' h with ⟨h1, h2, h3, h4⟩ | ⟨t, h1, h2, h3, h4, h5, h6⟩
      · subst h3
        refine Or.inr ⟨0, by simp, by omega, h2, hlt, ?_, ?_⟩
        · intro u c hu
          cases u with
          | zero =>
            simp only [List.get?_cons_zero] at hu
            rw [← Option.some.inj hu]
          | succ v =>
            simp only [List.get?_cons_succ] at hu
            exact h4 c (List.get?_mem hu)
        · intro u c hu _
          omega
      · refine Or.inr ⟨t + 1, by simpa using h1, by omega, h3, lt_trans hlt h4, ?_, ?_⟩
        · intro u c hu
          cases u with
          | zero =>
            simp only [List.get?_cons_zero] at hu
            rw [← Option.some.inj hu]
            exact le_of_lt h4
          | succ v =>
            simp only [List.get?_cons_succ] at hu
            exact h5 v c hu
        · intro u c hult hu
          cases u with
          | zero =>
            simp only [List.get?_cons_zero] at hu
            rw [← Option.some.inj hu]
            exact h4
          | succ v =>
            simp only [List.get?_cons_succ] at hu
            exact h6 v c (by omega) hu
    · rcases ih (k + 1) j m b j' m' b' h with ⟨h1, h2, h3, h4⟩ | ⟨t, h1, h2, h3, h4, h5, h6⟩
      · refine Or.inl ⟨h1, h2, h3, ?_⟩
        intro x hx
        rcases List.mem_cons.mp hx with rfl | hx'
        · exact le_of_not_lt hlt
        · exact h4 x hx'
      · refine Or.inr ⟨t + 1, by simpa using h1, by omega, h3, h4, ?_, ?_⟩
        · intro u c hu
          cases u with
          | zero =>
            simp only [List.get?_cons_zero] at hu
            rw [← Option.some.inj hu]
            exact le_of_lt (lt_of_le_of_lt (le_of_not_lt hlt) h4)
          | succ v =>
            simp only [List.get?_cons_succ] at hu
            exact h5 v c hu
        · intro u c hult hu
          cases u with
          | zero =>
            simp only [List.get?_cons_zero] at hu
            rw [← Option.some.inj hu]
            exact lt_of_le_of_lt (le_of_not_lt hlt) h4
          | succ v =>
            simp only [List.get?_cons_succ] at hu
            exact h6 v c (by omega) hu

/-- The `forEach` argmax scan indeed finds the first-encountered
maximum. -/
theorem argmaxFirst_spec (f : α → ℚ) (l : List α) (hl : l ≠ []) :
    ∃ i a, argmaxFirst f l = some (i, f a, a) ∧ IsFirstArgmax f l i a := by
  match l, hl with
  | a :: rest, _ =>
    have hstart : argmaxFirst f (a :: rest) = argmaxGo f rest 1 (some (0, f a, a)) := rfl
    obtain ⟨⟨j', m', b'⟩, hout⟩ := argmaxGo_some f rest 1 (0, f a, a)
    rcases argmaxGo_spec f rest 1 0 (f a) a j' m' b' hout
      with ⟨h1, h2, h3, h4⟩ | ⟨t, h1, h2, h3, h4, h5, h6⟩
    · refine ⟨0, a, by rw [hstart, hout, h1, h2, h3], ?_, ?_, ?_⟩
      · simp
      · intro u c hu
        cases u with
        | zero =>
          simp only [List.get?_cons_zero] at hu
          rw [← Option.some.inj hu]
        | succ v =>
          simp only [List.get?_cons_succ] at hu
          exact h4 c (List.get?_mem hu)
      · intro u c hult hu
        omega
    · subst h3
      refine ⟨j', b', by rw [hstart, hout], ?_, ?_, ?_⟩
      · rw [h2, Nat.add_comm 1 t]
        simpa using h1
      · intro u c hu
        cases u with
        | zero =>
          simp only [List.get?_cons_zero] at hu
          rw [← Option.some.inj hu]
          exact le_of_lt h4
        | succ v =>
          simp only [List.get?_cons_succ] at hu
          exact h5 v c hu
      · intro u c hult hu
        cases u with
        | zero =>
          simp only [List.get?_cons_zero] at hu
          rw [← Option.some.inj hu]
          exact h4
        | succ v =>
          simp only [List.get?_cons_succ] at hu
          refine h6 v c ?_ hu
          omega

/-- The greedy selection process described by the claim, as a relation
`MMRChain selected remaining output`: from the state
`(selected, remaining)` the process ends with `output`. -/
inductive MMRChain (sim : V → V → ℚ) (queryVector : V) (lam : ℚ) (k : ℕ) :
    List (SearchItem V) → List (SearchItem V) → List (SearchItem V) → Prop
  | stopFull (selected remaining : List (SearchItem V)) (h : k ≤ selected.length) :
      MMRChain sim queryVector lam k selected remaining selected
  | stopEmpty (selected : List (SearchItem V)) :
      MMRChain sim queryVector lam k selected [] selected
  | step (selected remaining : List (SearchItem V)) (i : ℕ) (c : SearchItem V)
      (out : List (SearchItem V))
      (hlt : selected.length < k)
      (hmax : IsFirstArgmax (mmrScore sim queryVector lam selected) remaining i c)
      (hrec : MMRChain sim queryVector lam k
        (selected ++ [{ c with score := mmrScore sim queryVector lam selected c }])
        (remaining.eraseIdx i) out) :
      MMRChain sim queryVector lam k selected remaining out

theorem mmrLoop_chain (sim : V → V → ℚ) (queryVector : V) (lam : ℚ) (k : ℕ) :
    ∀ (fuel : ℕ) (selected remaining : List (SearchItem V)),
      remaining.length ≤ fuel →
      MMRChain sim queryVector lam k selected remaining
        (mmrLoop sim queryVector lam k selected remaining fuel) := by
  intro fuel
  induction fuel with
  | zero =>
    intro sel rem hle
    have hnil : rem = [] := List.length_eq_zero.mp (Nat.le_zero.mp hle)
    subst hnil
    exact MMRChain.stopEmpty sel
  | succ fuel ih =>
    intro sel rem hle
    unfold mmrLoop
    split_ifs with hcond
    · have hrem : rem ≠ [] := by
        intro hnil
        subst hnil
        simp at hcond
      obtain ⟨i, c, heq, hfa⟩ := argmaxFirst_spec (mmrScore sim queryVector lam sel) rem hrem
      rw [heq]
      have hi : i < rem.length := by
        rcases List.get?_eq_some.mp hfa.1 with ⟨hw, _⟩
        exact hw
      refine MMRChain.step sel rem i c _ hcond.1 hfa (ih _ _ ?_)
      rw [List.length_eraseIdx_of_lt hi]
      omega
    · rcases Decidable.not_and_iff_or_not.mp hcond with hfull | hempty
      · exact MMRChain.stopFull sel rem (le_of_not_lt hfull)
      · have hnil : rem = [] := by
          cases rem with
          | nil => rfl
          | cons x xs => simp at hempty
        subst hnil
        exact MMRChain.stopEmpty sel

theorem mmrLoop_prefix (sim : V → V → ℚ) (queryVector : V) (lam : ℚ) (k : ℕ) :
    ∀ (fuel : ℕ) (selected remaining : List (SearchItem V)),
      ∃ ext, mmrLoop sim queryVector lam k selected remaining fuel = selected ++ ext := by
  intro fuel
  induction fuel with
  | zero => exact fun sel rem => ⟨[], by simp [mmrLoop]⟩
  | succ fuel ih =>
    intro sel rem
    unfold mmrLoop
    split_ifs with hcond
    · cases heq : argmaxFirst (mmrScore sim queryVector lam sel) rem with
      | none => exact ⟨[], by simp⟩
      | some out =>
        obtain ⟨i, s, c⟩ := out
        obtain ⟨ext, hext⟩ := ih (sel ++ [{ c with score := s }]) (rem.eraseIdx i)
        refine ⟨[{ c with score := s }] ++ ext, ?_⟩
        show mmrLoop sim queryVector lam k (sel ++ [{ c with score := s }])
          (rem.eraseIdx i) fuel = _
        rw [hext, List.append_assoc]
    · exact ⟨[], by simp⟩

theorem mmrLoop_length (sim : V → V → ℚ) (queryVector : V) (lam : ℚ) (k : ℕ) :
    ∀ (fuel : ℕ) (selected remaining : List (SearchItem V)),
      (mmrLoop sim queryVector lam k selected remaining fuel).length ≤
        max selected.length k := by
  intro fuel
  induction fuel with
  | zero =>
    intro sel rem
    simp [mmrLoop]
  | succ fuel ih =>
    intro sel rem
    unfold mmrLoop
    split_ifs with hcond
    · cases heq : argmaxFirst (mmrScore sim queryVector lam sel) rem with
      | none => simp
      | some out =>
        obtain ⟨i, s, c⟩ := out
        have h := ih (sel ++ [{ c with score := s }]) (rem.eraseIdx i)
        have hbound : max (sel ++ [{ c with score := s }]).length k ≤ max sel.length k := by
          simp only [List.length_append, List.length_singleton]
          have : sel.length + 1 ≤ k := hcond.1
          omega
        exact le_trans h hbound
    · simp

/-- C1, counterexample: with `topK = 0` and one candidate, `mmrRerank`
still selects the most relevant candidate before the `selected.length
< k` guard runs, so it returns 1 result — more than `topK`. -/
theorem C1_mmr_topk_counterexample :
    ¬ ((mmrRerank (fun _ _ => (0 : ℚ)) ()
          [⟨(), 0, ⟨⟨7, ['h', 'i'], 0, 0, 2, 3⟩, 1⟩, none, 1⟩] 0 0).length ≤ 0) := by
  decide

/-- C1 (amended): for every similarity function, every non-empty
candidate list and every `topK ≥ 1`, `mmrRerank` returns at most `topK`
results; its first result is the first-encountered candidate of maximum
relevance to the query (with its score overwritten by that relevance);
and the whole output is produced by the greedy MMR chain: each
subsequent result is the first-encountered remaining candidate
maximising `lambda * relevance − (1 − lambda) * maxSimilarity(·,
selected)`, stopping once `topK` are chosen or candidates run out. -/
theorem C1_mmr_greedy {V : Type} (sim : V → V → ℚ) (queryVector : V)
    (vectors : List (SearchItem V)) (lam : ℚ) (k : ℕ)
    (hne : vectors ≠ []) (hk : 1 ≤ k) :
    (mmrRerank sim queryVector vectors lam k).length ≤ k ∧
    ∃ i c, IsFirstArgmax (fun cand => sim queryVector cand.vector) vectors i c ∧
      (mmrRerank sim queryVector vectors lam k).head? =
        some { c with score := sim queryVector c.vector } ∧
      MMRChain sim queryVector lam k
        [{ c with score := sim queryVector c.vector }]
        (vectors.eraseIdx i)
        (mmrRerank sim queryVector vectors lam k) := by
  have hlen0 : ¬ (vectors.length = 0) := by
    intro h
    exact hne (List.length_eq_zero.mp h)
  obtain ⟨i, c, heq, hfa⟩ :=
    argmaxFirst_spec (fun cand => sim queryVector cand.vector) vectors hne
  have hre : mmrRerank sim queryVector vectors lam k =
      mmrLoop sim queryVector lam k
        [{ c with score := sim queryVector c.vector }]
        (vectors.eraseIdx i) (vectors.eraseIdx i).length := by
    unfold mmrRerank
    rw [if_neg hlen0, heq]
  refine ⟨?_, i, c, hfa, ?_, ?_⟩
  · rw [hre]
    have h := mmrLoop_length sim queryVector lam k (vectors.eraseIdx i).length
      [{ c with score := sim queryVector c.vector }] (vectors.eraseIdx i)
    simpa [Nat.max_eq_right hk] using h
  · rw [hre]
    obtain ⟨ext, hext⟩ := mmrLoop_prefix sim queryVector lam k (vectors.eraseIdx i).length
      [{ c with score := sim queryVector c.vector }] (vectors.eraseIdx i)
    rw [hext]
    simp
  · rw [hre]
    exact mmrLoop_chain sim queryVector lam k (vectors.eraseIdx i).length
      [{ c with score := sim queryVector c.vector }] (vectors.eraseIdx i) (Nat.le_refl _)

/-- The concrete similarity function and candidate of the C1 example
instance. -/
def c1Sim : Unit → Unit → ℚ := fun _ _ => 0

def c1Item : SearchItem Unit :=
  ⟨(), 0, ⟨⟨7, ['h', 'i'], 0, 0, 2, 3⟩, 1⟩, none, 1⟩

/-- C1, witness: the amended theorem applied to a concrete singleton
candidate list with `topK = 3`. -/
theorem C1_mmr_greedy_witness :
    (mmrRerank c1Sim () [c1Item] 0 3).length ≤ 3 ∧
    ∃ i c, IsFirstArgmax (fun cand => c1Sim () cand.vector) [c1Item] i c ∧
      (mmrRerank c1Sim () [c1Item] 0 3).head? =
        some { c with score := c1Sim () c.vector } ∧
      MMRChain c1Sim () 0 3 [{ c with score := c1Sim () c.vector }]
        ([c1Item].eraseIdx i) (mmrRerank c1Sim () [c1Item] 0 3) :=
  C1_mmr_greedy c1Sim () [c1Item] 0 3 (by simp) (by omega)

/-! ## Claim C6 — document deletion cascades to chunks, vectors, search -/

theorem foldDelete_spec {V : Type} (ids : List ℕ) :
    ∀ st : StoreState V,
      (ids.foldl deleteChunkAndVector st).documents = st.documents ∧
      (ids.foldl deleteChunkAndVector st).config = st.config ∧
      (∀ ch, ch ∈ (ids.foldl deleteChunkAndVector st).chunks ↔
        ch ∈ st.chunks ∧ ch.id ∉ ids) ∧
      (∀ vr, vr ∈ (ids.foldl deleteChunkAndVector st).vectors ↔
        vr ∈ st.vectors ∧ vr.id ∉ ids) := by
  induction ids with
  | nil =>
    intro st
    refine ⟨rfl, rfl, ?_, ?_⟩ <;> intro x <;> simp
  | cons cid rest ih =>
    intro st
    obtain ⟨hdocs, hconfig, hch, hvr⟩ := ih (deleteChunkAndVector st cid)
    refine ⟨hdocs, hconfig, ?_, ?_⟩
    · intro ch
      rw [List.foldl_cons, hch ch]
      simp only [deleteChunkAndVector, deleteChunkById, List.mem_filter, List.mem_cons]
      constructor
      · rintro ⟨⟨hmem, hne⟩, hnin⟩
        simp only [ne_eq, decide_eq_true_eq] at hne
        exact ⟨hmem, by simp [hne, hnin]⟩
      · rintro ⟨hmem, hnin⟩
        simp only [not_or] at hnin
        exact ⟨⟨hmem, by simp [hnin.1]⟩, hnin.2⟩
    · intro vr
      rw [List.foldl_cons, hvr vr]
      simp only [deleteChunkAndVector, deleteVecById, List.mem_filter, List.mem_cons]
      constructor
      · rintro ⟨⟨hmem, hne⟩, hnin⟩
        simp only [ne_eq, decide_eq_true_eq] at hne
        exact ⟨hmem, by simp [hne, hnin]⟩
      · rintro ⟨hmem, hnin⟩
        simp only [not_or] at hnin
        exact ⟨⟨hmem, by simp [hnin.1]⟩, hnin.2⟩

theorem deleteDocument_chunks {V : Type} (st : StoreState V) (docId : ℕ) :
    ∀ ch ∈ (deleteDocument st docId).1.chunks, ch.docId ≠ docId := by
  intro ch hch hdoc
  have heq : (deleteDocument st docId).1.chunks =
      (((st.chunks.filter (fun c => c.docId = docId)).map (fun c => c.id)).foldl
        deleteChunkAndVector st).chunks := rfl
  rw [heq] at hch
  have hspec := (foldDelete_spec
    ((st.chunks.filter (fun c => c.docId = docId)).map (fun c => c.id)) st).2.2.1 ch
  obtain ⟨hmem, hnin⟩ := hspec.mp hch
  exact hnin (List.mem_map_of_mem _ (List.mem_filter.mpr ⟨hmem, by simp [hdoc]⟩))

theorem deleteDocument_vectors {V : Type} (st : StoreState V) (docId : ℕ) :
    ∀ vr ∈ (deleteDocument st docId).1.vectors,
      vr.id ∉ (st.chunks.filter (fun c => c.docId = docId)).map (fun c => c.id) := by
  intro vr hvr
  have heq : (deleteDocument st docId).1.vectors =
      (((st.chunks.filter (fun c => c.docId = docId)).map (fun c => c.id)).foldl
        deleteChunkAndVector st).vectors := rfl
  rw [heq] at hvr
  have hspec := (foldDelete_spec
    ((st.chunks.filter (fun c => c.docId = docId)).map (fun c => c.id)) st).2.2.2 vr
  exact (hspec.mp hvr).2

theorem collectScored_chunk_mem {V : Type} (sim : V → V → ℚ) (queryVec : V)
    (st : StoreState V) (threshold : ℚ) :
    ∀ (vecs : List (VecRecord V)) (items : List (SearchItem V)),
      collectScored sim queryVec st threshold vecs = some items →
      ∀ it ∈ items, it.chunk ∈ st.chunks := by
  intro vecs
  induction vecs with
  | nil =>
    intro items h it hit
    simp only [collectScored, Option.some.injEq] at h
    subst h
    cases hit
  | cons r rest ih =>
    intro items h it hit
    unfold collectScored at h
    dsimp only at h
    split_ifs at h with hth
    · cases hfind : getChunkById st.chunks r.chunkId with
      | none => rw [hfind] at h; cases h
      | some chunk =>
        rw [hfind] at h
        obtain ⟨tail, htail, hitems⟩ := Option.map_eq_some'.mp h
        subst hitems
        rcases List.mem_cons.mp hit with rfl | hmem
        · exact List.mem_of_find?_eq_some hfind
        · exact ih tail htail it hmem
    · exact ih items h it hit

theorem argmaxGo_mem (f : α → ℚ) :
    ∀ (rest : List α) (k j : ℕ) (m : ℚ) (b : α) (j' : ℕ) (m' : ℚ) (b' : α),
      argmaxGo f rest k (some (j, m, b)) = some (j', m', b') →
      b' = b ∨ b' ∈ rest := by
  intro rest
  induction rest with
  | nil =>
    intro k j m b j' m' b' h
    unfold argmaxGo at h
    obtain ⟨-, -, h3⟩ := Prod.mk.injEq _ _ _ _ ▸ (Option.some.inj h)
    exact Or.inl (by simp_all)
  | cons a rest' ih =>
    intro k j m b j' m' b' h
    unfold argmaxGo at h
    dsimp only at h
    split_ifs at h with hlt
    · rcases ih (k + 1) k (f a) a j' m' b' h with rfl | hmem
      · exact Or.inr (List.mem_cons_self _ _)
      · exact Or.inr (List.mem_cons_of_mem _ hmem)
    · rcases ih (k + 1) j m b j' m' b' h with rfl | hmem
      · exact Or.inl rfl
      · exact Or.inr (List.mem_cons_of_mem _ hmem)

theorem argmaxFirst_mem (f : α → ℚ) (l : List α) (i : ℕ) (s : ℚ) (c : α)
    (h : argmaxFirst f l = some (i, s, c)) : c ∈ l := by
  cases l with
  | nil => cases h
  | cons a rest =>
    have h' : argmaxGo f rest 1 (some (0, f a, a)) = some (i, s, c) := h
    rcases argmaxGo_mem f rest 1 0 (f a) a i s c h' with rfl | hmem
    · exact List.mem_cons_self _ _
    · exact List.mem_cons_of_mem _ hmem

theorem mmrLoop_chunk_mem {V : Type} (sim : V → V → ℚ) (queryVec : V) (lam : ℚ) (k : ℕ) :
    ∀ (fuel : ℕ) (sel rem : List (SearchItem V)),
      ∀ r ∈ mmrLoop sim queryVec lam k sel rem fuel,
        r ∈ sel ∨ ∃ c ∈ rem, r.chunk = c.chunk := by
  intro fuel
  induction fuel with
  | zero =>
    intro sel rem r hr
    exact Or.inl hr
  | succ fuel ih =>
    intro sel rem r hr
    unfold mmrLoop at hr
    split_ifs at hr with hcond
    · cases heq : argmaxFirst (mmrScore sim queryVec lam sel) rem with
      | none => rw [heq] at hr; exact Or.inl hr
      | some out =>
        obtain ⟨i, s, c⟩ := out
        rw [heq] at hr
        rcases ih (sel ++ [{ c with score := s }]) (rem.eraseIdx i) r hr with hmem | ⟨c', hc', hchunk⟩
        · rcases List.mem_append.mp hmem with hmem | hmem
          · exact Or.inl hmem
          · simp only [List.mem_singleton] at hmem
            subst hmem
            exact Or.inr ⟨c, argmaxFirst_mem _ rem i s c heq, rfl⟩
        · exact Or.inr ⟨c', (List.eraseIdx_sublist rem i).subset hc', hchunk⟩
    · exact Or.inl hr

theorem mmrRerank_chunk_mem {V : Type} (sim : V → V → ℚ) (queryVec : V)
    (vectors : List (SearchItem V)) (lam : ℚ) (k : ℕ) :
    ∀ r ∈ mmrRerank sim queryVec vectors lam k, ∃ c ∈ vectors, r.chunk = c.chunk := by
  intro r hr
  unfold mmrRerank at hr
  split_ifs at hr with hlen
  · cases hr
  · cases heq : argmaxFirst (fun cand => sim queryVec cand.vector) vectors with
    | none =>
      rw [heq] at hr
      rcases mmrLoop_chunk_mem sim queryVec lam k vectors.length [] vectors r hr
        with hmem | ⟨c, hc, hchunk⟩
      · cases hmem
      · exact ⟨c, hc, hchunk⟩
    | some out =>
      obtain ⟨i, s, c⟩ := out
      rw [heq] at hr
      rcases mmrLoop_chunk_mem sim queryVec lam k (vectors.eraseIdx i).length
        [{ c with score := s }] (vectors.eraseIdx i) r hr with hmem | ⟨c', hc', hchunk⟩
      · simp only [List.mem_singleton] at hmem
        subst hmem
        exact ⟨c, argmaxFirst_mem _ vectors i s c heq, rfl⟩
      · exact ⟨c', (List.eraseIdx_sublist vectors i).subset hc', hchunk⟩

theorem findTopK_chunk_mem {V : Type} (sim : V → V → ℚ) (queryVec : V)
    (vectors : List (SearchItem V)) (k : ℕ) :
    ∀ r ∈ findTopK sim queryVec vectors k, ∃ c ∈ vectors, r.chunk = c.chunk := by
  intro r hr
  unfold findTopK at hr
  have hr1 := List.mem_of_mem_take hr
  have hr2 : r ∈ vectors.map (fun vec => { vec with score := sim queryVec vec.vector }) := by
    exact (List.mergeSort_perm _ _).mem_iff.mp hr1
  obtain ⟨c, hc, heq⟩ := List.mem_map.mp hr2
  exact ⟨c, hc, by rw [← heq]⟩

/-- C6: after `deleteDocument(docId)`, no chunk with that `docId`
remains, no vector keyed by one of that document's chunk ids remains,
and any subsequent search that completes returns no result whose
`chunk.docId` equals the deleted id — for every similarity function,
query vector and search configuration. -/
theorem C6_delete_document_cascades {V : Type} (sim : V → V → ℚ) (queryVec : V)
    (st : StoreState V) (docId : ℕ) (topK : ℕ) (threshold : ℚ)
    (useMMR : Bool) (mmrLambda : ℚ) :
    (∀ ch ∈ (deleteDocument st docId).1.chunks, ch.docId ≠ docId) ∧
    (∀ vr ∈ (deleteDocument st docId).1.vectors,
      vr.id ∉ (st.chunks.filter (fun c => c.docId = docId)).map (fun c => c.id)) ∧
    (∀ res, queryVector sim queryVec (deleteDocument st docId).1 topK threshold
        useMMR mmrLambda = some res →
      ∀ r ∈ res, r.chunk.docId ≠ docId) := by
  refine ⟨deleteDocument_chunks st docId, deleteDocument_vectors st docId, ?_⟩
  intro res hres r hr
  unfold queryVector at hres
  obtain ⟨items, hitems, hresEq⟩ := Option.map_eq_some'.mp hres
  subst hresEq
  have hchunks := collectScored_chunk_mem sim queryVec (deleteDocument st docId).1 threshold
    (deleteDocument st docId).1.vectors items hitems
  split_ifs at hr with hcond
  · obtain ⟨c, hc, hchunk⟩ := mmrRerank_chunk_mem sim queryVec items mmrLambda topK r hr
    rw [hchunk]
    exact deleteDocument_chunks st docId c.chunk (hchunks c hc)
  · obtain ⟨c, hc, hchunk⟩ := findTopK_chunk_mem sim queryVec items topK r hr
    rw [hchunk]
    exact deleteDocument_chunks st docId c.chunk (hchunks c hc)

/-- C6, witness: the theorem applied to a concrete one-document store
(document 7 with one chunk and one vector), deleting document 7. -/
theorem C6_delete_document_cascades_witness :
    (∀ ch ∈ (deleteDocument
        (⟨[⟨7, ['d'], ['t'], [], 0, 0⟩], [⟨⟨7, ['h', 'i'], 0, 0, 2, 3⟩, 1⟩],
          [⟨1, 1, (), 4⟩], ⟨800, 200, none, 1, 1⟩⟩ : StoreState Unit) 7).1.chunks,
      ch.docId ≠ 7) ∧
    (∀ vr ∈ (deleteDocument
        (⟨[⟨7, ['d'], ['t'], [], 0, 0⟩], [⟨⟨7, ['h', 'i'], 0, 0, 2, 3⟩, 1⟩],
          [⟨1, 1, (), 4⟩], ⟨800, 200, none, 1, 1⟩⟩ : StoreState Unit) 7).1.vectors,
      vr.id ∉ (((⟨[⟨7, ['d'], ['t'], [], 0, 0⟩], [⟨⟨7, ['h', 'i'], 0, 0, 2, 3⟩, 1⟩],
          [⟨1, 1, (), 4⟩], ⟨800, 200, none, 1, 1⟩⟩ : StoreState Unit)).chunks.filter
          (fun c => c.docId = 7)).map (fun c => c.id)) ∧
    (∀ res, queryVector (fun _ _ => (0 : ℚ)) () (deleteDocument
        (⟨[⟨7, ['d'], ['t'], [], 0, 0⟩], [⟨⟨7, ['h', 'i'], 0, 0, 2, 3⟩, 1⟩],
          [⟨1, 1, (), 4⟩], ⟨800, 200, none, 1, 1⟩⟩ : StoreState Unit) 7).1 10 0
        false 0 = some res →
      ∀ r ∈ res, r.chunk.docId ≠ 7) :=
  C6_delete_document_cascades (fun _ _ => (0 : ℚ)) ()
    (⟨[⟨7, ['d'], ['t'], [], 0, 0⟩], [⟨⟨7, ['h', 'i'], 0, 0, 2, 3⟩, 1⟩],
      [⟨1, 1, (), 4⟩], ⟨800, 200, none, 1, 1⟩⟩ : StoreState Unit) 7 10 0 false 0

end LLMWeb
